import Mathlib

/-!
# CredChain-LMS: credential hashing, minting and verification

A shallow embedding of the client logic of `src/src/App.js` (with the event
interface of `src/src/contract.js`).  React state is an explicit record, every
handler (`verifyToken`, `checkHash`, `mintCredential`, `adminSetIssuer`,
`loadMyTokens`) is a pure function from the state at the time of the click and
the ledger's answers to the trace of setter calls and ledger calls it performs,
in program order.  The ledger is an oracle: nothing is assumed about its answers.
-/

namespace CredChain

/-! ## JavaScript strings -/

/-- A JavaScript string, as its sequence of UTF-16 code units. -/
abbrev JSString := List Nat

/-- Every code unit of the string fits in 16 bits. -/
def WellFormed (s : JSString) : Prop := ∀ c ∈ s, c < 65536

/-- The UTF-16 code units of one character. -/
def utf16 (c : Char) : List Nat :=
  if c.toNat < 0x10000 then [c.toNat]
  else [0xD800 + (c.toNat - 0x10000) / 0x400, 0xDC00 + (c.toNat - 0x10000) % 0x400]

/-- A string literal of the source, as a JavaScript string. -/
def js (s : String) : JSString := s.toList.flatMap utf16

def isHighSurrogate (c : Nat) : Bool := decide (0xD800 ≤ c) && decide (c < 0xDC00)

def isLowSurrogate (c : Nat) : Bool := decide (0xDC00 ≤ c) && decide (c < 0xE000)

/-- Modelled from the spec: `String.prototype.toLowerCase` of the JavaScript
runtime, on the code units of an ASCII string (the digests it is applied to
are hexadecimal text): `A`..`Z` become `a`..`z`, every other unit is kept. -/
def toLowerCase (s : JSString) : JSString :=
  s.map fun c => if 0x41 ≤ c ∧ c ≤ 0x5A then c + 0x20 else c

/-- Modelled from the spec: `String.prototype.toUpperCase` of the JavaScript
runtime on the code units of an ASCII string: `a`..`z` become `A`..`Z`. -/
def toUpperCase (s : JSString) : JSString :=
  s.map fun c => if 0x61 ≤ c ∧ c ≤ 0x7A then c - 0x20 else c

/-- The string is ASCII text: every code unit is below 128. -/
def IsAscii (s : JSString) : Prop := ∀ c ∈ s, c < 128

instance (s : JSString) : Decidable (IsAscii s) := by
  unfold IsAscii; infer_instance

instance (s : JSString) : Decidable (WellFormed s) := by
  unfold WellFormed; infer_instance

/-- Decimal text of a non-negative integer (`BigInt.prototype.toString`). -/
def decimal (n : Nat) : JSString := (Nat.toDigits 10 n).map Char.toNat

/-! ## UTF-8 encoding (`ethers.toUtf8Bytes`) -/

/-- Modelled from the spec: `ethers.toUtf8Bytes` of the ethers library, the
"UTF-8 encoded" step of the digest.  It walks the code units: one byte below
0x80, two below 0x800, four for a surrogate pair, three otherwise; a high
surrogate that is not followed by a low surrogate makes it throw (`none`). -/
def toUtf8Bytes : JSString → Option (List Nat)
  | [] => some []
  | c :: rest =>
    if c < 0x80 then
      (toUtf8Bytes rest).map fun bs => c :: bs
    else if c < 0x800 then
      (toUtf8Bytes rest).map fun bs => (c / 64 + 0xC0) :: (c % 64 + 0x80) :: bs
    else if isHighSurrogate c then
      match rest with
      | [] => none
      | c2 :: rest2 =>
        if isLowSurrogate c2 then
          let pair := 0x10000 + (c % 0x400) * 0x400 + c2 % 0x400
          (toUtf8Bytes rest2).map fun bs =>
            (pair / 0x40000 + 0xF0) :: (pair / 0x1000 % 64 + 0x80) ::
              (pair / 64 % 64 + 0x80) :: (pair % 64 + 0x80) :: bs
        else none
    else
      (toUtf8Bytes rest).map fun bs =>
        (c / 0x1000 + 0xE0) :: (c / 64 % 64 + 0x80) :: (c % 64 + 0x80) :: bs

/-! ## Keccak-256 (`ethers.keccak256`) -/

def mask64 : Nat := 2 ^ 64 - 1

/-- Rotate a 64-bit lane left by `n` bits. -/
def rotl64 (x n : Nat) : Nat :=
  ((x <<< n) ||| (x >>> (64 - n))) &&& mask64

def roundConstants : List Nat :=
  [0x0000000000000001, 0x0000000000008082, 0x800000000000808A, 0x8000000080008000,
   0x000000000000808B, 0x0000000080000001, 0x8000000080008081, 0x8000000000008009,
   0x000000000000008A, 0x0000000000000088, 0x0000000080008009, 0x000000008000000A,
   0x000000008000808B, 0x800000000000008B, 0x8000000000008089, 0x8000000000008003,
   0x8000000000008002, 0x8000000000000080, 0x000000000000800A, 0x800000008000000A,
   0x8000000080008081, 0x8000000000008080, 0x0000000080000001, 0x8000000080008008]

/-- Rotation offsets of the rho step, at lane index `x + 5 * y`. -/
def rotationOffsets : List Nat :=
  [0, 1, 62, 28, 27,
   36, 44, 6, 55, 20,
   3, 10, 43, 25, 39,
   41, 45, 15, 21, 8,
   18, 2, 61, 56, 14]

/-- Lane `(x, y)` of a 25-lane state, coordinates taken modulo 5. -/
def lane (a : List Nat) (x y : Nat) : Nat := a.getD (x % 5 + 5 * (y % 5)) 0

def theta (a : List Nat) : List Nat :=
  let c := (List.range 5).map fun x =>
    lane a x 0 ^^^ lane a x 1 ^^^ lane a x 2 ^^^ lane a x 3 ^^^ lane a x 4
  let d := (List.range 5).map fun x =>
    c.getD ((x + 4) % 5) 0 ^^^ rotl64 (c.getD ((x + 1) % 5) 0) 1
  (List.range 25).map fun i => a.getD i 0 ^^^ d.getD (i % 5) 0

/-- The rho and pi steps: output lane `(X, Y)` is lane `(x, y)` rotated, where
`x = (X + 3 * Y) % 5` and `y = X`. -/
def rhoPi (a : List Nat) : List Nat :=
  (List.range 25).map fun i =>
    let x := (i % 5 + 3 * (i / 5)) % 5
    let y := i % 5
    rotl64 (lane a x y) (rotationOffsets.getD (x + 5 * y) 0)

def chi (b : List Nat) : List Nat :=
  (List.range 25).map fun i =>
    lane b (i % 5) (i / 5) ^^^
      ((lane b (i % 5 + 1) (i / 5) ^^^ mask64) &&& lane b (i % 5 + 2) (i / 5))

def iota (rc : Nat) : List Nat → List Nat
  | [] => []
  | h :: t => (h ^^^ rc) :: t

def keccakRound (a : List Nat) (rc : Nat) : List Nat := iota rc (chi (rhoPi (theta a)))

/-- The permutation Keccak-f[1600]: 24 rounds. -/
def keccakF (a : List Nat) : List Nat := roundConstants.foldl keccakRound a

/-- Little-endian value of a run of bytes. -/
def leWord : List Nat → Nat
  | [] => 0
  | b :: bs => b + 256 * leWord bs

/-- The first `n` 8-byte little-endian words of a block. -/
def wordsOf : Nat → List Nat → List Nat
  | 0, _ => []
  | n + 1, bs => leWord (bs.take 8) :: wordsOf n (bs.drop 8)

def xorInto : List Nat → List Nat → List Nat
  | [], _ => []
  | a :: as, [] => a :: as
  | a :: as, w :: ws => (a ^^^ w) :: xorInto as ws

/-- Absorb `n` blocks of 136 bytes (the rate of Keccak-256). -/
def absorb : Nat → List Nat → List Nat → List Nat
  | 0, st, _ => st
  | n + 1, st, bs =>
    absorb n (keccakF (xorInto st (wordsOf 17 (bs.take 136)))) (bs.drop 136)

/-- Keccak padding (`pad10*1` with the original domain byte 0x01) to a
multiple of 136 bytes. -/
def pad (bs : List Nat) : List Nat :=
  let q := 136 - bs.length % 136
  if q = 1 then bs ++ [0x81]
  else bs ++ [0x01] ++ List.replicate (q - 2) 0 ++ [0x80]

def leBytes : Nat → Nat → List Nat
  | 0, _ => []
  | n + 1, w => (w % 256) :: leBytes n (w / 256)

/-- Modelled from the spec: the hash primitive behind `ethers.keccak256`, the
"cryptographic hash function producing a fixed-width digest" (Keccak-256,
32 bytes), which is code of the ethers library. -/
def keccak256Bytes (bs : List Nat) : List Nat :=
  let p := pad bs
  let st := absorb (p.length / 136) (List.replicate 25 0) p
  (st.take 4).flatMap (leBytes 8)

/-- The hexadecimal digit (lowercase) of a value below 16. -/
def hexDigit (n : Nat) : Nat := if n < 10 then 0x30 + n else 0x57 + n

/-- Modelled from the spec: `ethers.hexlify`, the digest "rendered as
lowercase hex with a fixed prefix": `0x` and two digits per byte. -/
def hexlify (bs : List Nat) : JSString :=
  0x30 :: 0x78 :: bs.flatMap fun v => [hexDigit (v / 16 % 16), hexDigit (v % 16)]

/-- The call `ethers.keccak256(bytes)`: the hex text of the 32-byte digest. -/
def keccak256 (bs : List Nat) : JSString := hexlify (keccak256Bytes bs)

/-! ## JSON serialization of the metadata (`JSON.stringify`) -/

/-- The escape `\uXXXX` of a code unit, four lowercase hexadecimal digits. -/
def unicodeEscape (c : Nat) : JSString :=
  [0x5C, 0x75, hexDigit (c / 4096 % 16), hexDigit (c / 256 % 16),
    hexDigit (c / 16 % 16), hexDigit (c % 16)]

/-- How `JSON.stringify` writes one code unit that is not part of a surrogate
pair: the short escapes for backspace, tab, line feed, form feed, carriage
return, the double quote and the backslash; `\uXXXX` for the other control
characters and for a lone surrogate; the unit itself otherwise. -/
def quoteUnit (c : Nat) : JSString :=
  if c = 0x08 then [0x5C, 0x62]
  else if c = 0x09 then [0x5C, 0x74]
  else if c = 0x0A then [0x5C, 0x6E]
  else if c = 0x0C then [0x5C, 0x66]
  else if c = 0x0D then [0x5C, 0x72]
  else if c = 0x22 then [0x5C, 0x22]
  else if c = 0x5C then [0x5C, 0x5C]
  else if c < 0x20 ∨ isHighSurrogate c = true ∨ isLowSurrogate c = true then unicodeEscape c
  else [c]

/-- The text between the quotes: surrogate pairs are copied, every other unit
goes through `quoteUnit`. -/
def quoteBody : JSString → JSString
  | [] => []
  | [c] => quoteUnit c
  | c :: d :: rest =>
    if isHighSurrogate c = true ∧ isLowSurrogate d = true then c :: d :: quoteBody rest
    else quoteUnit c ++ quoteBody (d :: rest)

/-- Modelled from the spec: the string case of `JSON.stringify` of the
JavaScript runtime (ECMA-262 `QuoteJSONString`), part of the "canonical
JSON-style serialization". -/
def quoteJSONString (s : JSString) : JSString := 0x22 :: (quoteBody s ++ [0x22])

/-- The metadata object built by `mintCredential` (App.js, lines 109-115). -/
structure Metadata where
  course : JSString
  moduleId : JSString
  learner : JSString
  issuer : JSString
  issuedAtISO : JSString
deriving DecidableEq, Repr

/-- One member of a serialized object: the quoted key, a colon, the quoted value. -/
def serializeProperty (key : String) (value : JSString) : JSString :=
  quoteJSONString (js key) ++ 0x3A :: quoteJSONString value

/-- Modelled from the spec: `JSON.stringify(meta)` of the JavaScript runtime for
the five string-valued properties of `meta`, "in a fixed key order" (the order
in which the object literal lists them), with no white space. -/
def stringify (m : Metadata) : JSString :=
  0x7B :: (serializeProperty "course" m.course ++ 0x2C ::
    (serializeProperty "moduleId" m.moduleId ++ 0x2C ::
    (serializeProperty "learner" m.learner ++ 0x2C ::
    (serializeProperty "issuer" m.issuer ++ 0x2C ::
    (serializeProperty "issuedAtISO" m.issuedAtISO ++ [0x7D])))))

/-- The digest `mintCredential` computes (App.js, lines 116-117):
`ethers.keccak256(ethers.toUtf8Bytes(JSON.stringify(meta)))`; `none` if the
encoder throws. -/
def credHashOf (m : Metadata) : Option JSString :=
  (toUtf8Bytes (stringify m)).map keccak256

/-! ## Data model -/

/-- The toast shown to the user: a type (`idle`, `info`, `ok`, `err`) and a message. -/
structure Toast where
  type : JSString
  msg : JSString
deriving DecidableEq, Repr

/-- The object `verifyToken` stores with `setCred` (App.js, lines 153-161). -/
structure Cred where
  tokenId : JSString
  ownerOf : JSString
  uriOf : JSString
  issuer : JSString
  credHash : JSString
  issuedAt : Nat
  revoked : Bool
deriving DecidableEq, Repr

/-- The React state of `App` (App.js, lines 10-41).  `provider` and `signer`
record whether the wallet objects are set, which is what `read` and `write`
(lines 43-44) depend on. -/
structure AppState where
  tab : JSString
  provider : Bool
  signer : Bool
  account : JSString
  owner : JSString
  amIssuer : Bool
  toast : Toast
  issuerAddr : JSString
  issuerAllowed : Bool
  learner : JSString
  course : JSString
  moduleId : JSString
  uri : JSString
  mintedId : JSString
  txHash : JSString
  tokenId : JSString
  cred : Option Cred
  jsonToCheck : JSString
  hashMatch : Option Bool
  myCreds : List JSString
deriving DecidableEq, Repr

/-- A value thrown by the ledger client: the handlers read its `shortMessage`
and `message`, either of which may be missing. -/
structure JSError where
  shortMessage : Option JSString
  message : Option JSString
deriving DecidableEq, Repr

/-- The tuple returned by `credentialOf` (contract.js, line 16). -/
structure CredentialTuple where
  issuer : JSString
  credHash : JSString
  issuedAt : Nat
  revoked : Bool
deriving DecidableEq, Repr

/-- A parsed event of the contract interface (contract.js, lines 18-20). -/
inductive LogDescription where
  | CredentialMinted (tokenId : Nat) (issuer learner credHash uri : JSString)
  | CredentialRevoked (tokenId : Nat) (issuer : JSString)
  | IssuerUpdated (issuer : JSString) (allowed : Bool)
deriving DecidableEq, Repr

/-- The event name of a parsed log (`p.name`). -/
def LogDescription.name : LogDescription → JSString
  | .CredentialMinted .. => js "CredentialMinted"
  | .CredentialRevoked .. => js "CredentialRevoked"
  | .IssuerUpdated .. => js "IssuerUpdated"

/-- The `tokenId` argument of a parsed log (`p.args.tokenId`), absent for an
event without one. -/
def LogDescription.tokenId : LogDescription → Option Nat
  | .CredentialMinted t .. => some t
  | .CredentialRevoked t _ => some t
  | .IssuerUpdated .. => none

/-- The `learner` argument of a parsed log. -/
def LogDescription.learner : LogDescription → Option JSString
  | .CredentialMinted _ _ l _ _ => some l
  | _ => none

/-- A raw log of a transaction receipt. -/
structure Log where
  address : JSString
  topics : List JSString
  data : JSString
deriving DecidableEq, Repr

/-- A submitted transaction: its hash and what `tx.wait()` settles to, the
logs of the receipt or a rejection. -/
structure TxResponse where
  hash : JSString
  wait : Except JSError (List Log)

/-- The calls a handler can issue on the ledger contract (contract.js, lines
4-16), the event query and the wait for a receipt. -/
inductive LedgerCall where
  | owner
  | isIssuer (account : JSString)
  | setIssuer (issuer : JSString) (allowed : Bool)
  | nextTokenId
  | mintCredential (learner credHash uri : JSString)
  | revoke (tokenId : JSString)
  | isValid (tokenId : JSString)
  | ownerOf (tokenId : JSString)
  | tokenURI (tokenId : JSString)
  | credentialOf (tokenId : JSString)
  | queryMinted (learner : JSString)
  | wait (txHash : JSString)
deriving DecidableEq, Repr

/-- What a handler does, step by step: a React setter call or a ledger call. -/
inductive Action where
  | setToast (t : Toast)
  | setOwner (o : JSString)
  | setAmIssuer (b : Bool)
  | setMintedId (id : JSString)
  | setTxHash (h : JSString)
  | setCred (c : Option Cred)
  | setHashMatch (b : Option Bool)
  | setMyCreds (ids : List JSString)
  | call (c : LedgerCall)
deriving DecidableEq, Repr

/-- Everything outside the component that a handler consults: the ethers
address check, the clock, and the ledger's answer to each call. -/
structure Env where
  isAddress : JSString → Bool
  now : JSString
  owner : Except JSError JSString
  isIssuer : JSString → Except JSError Bool
  setIssuer : JSString → Bool → Except JSError TxResponse
  mintCredential : JSString → JSString → JSString → Except JSError TxResponse
  ownerOf : JSString → Except JSError JSString
  tokenURI : JSString → Except JSError JSString
  credentialOf : JSString → Except JSError CredentialTuple
  parseLog : Log → Option LogDescription
  history : List LogDescription
  queryError : Option JSError
  sched : Nat

/-- The effect of one action on the state; a ledger call changes no state. -/
def AppState.apply (s : AppState) : Action → AppState
  | .setToast t => { s with toast := t }
  | .setOwner o => { s with owner := o }
  | .setAmIssuer b => { s with amIssuer := b }
  | .setMintedId id => { s with mintedId := id }
  | .setTxHash h => { s with txHash := h }
  | .setCred c => { s with cred := c }
  | .setHashMatch b => { s with hashMatch := b }
  | .setMyCreds ids => { s with myCreds := ids }
  | .call _ => s

/-- The state after a handler's trace. -/
def AppState.run (s : AppState) (trace : List Action) : AppState :=
  trace.foldl AppState.apply s

/-- The ledger calls of a trace, in order. -/
def ledgerCalls : List Action → List LedgerCall
  | [] => []
  | .call c :: rest => c :: ledgerCalls rest
  | _ :: rest => ledgerCalls rest

/-! ## Helpers of the handlers -/

def isDigit (c : Nat) : Bool := decide (0x30 ≤ c) && decide (c ≤ 0x39)

/-- The pattern `\d+$` from the current position: a digit, then digits up to
the end of the input. -/
def matchDigitsToEnd : JSString → Bool
  | [] => false
  | [c] => isDigit c
  | c :: d :: rest => isDigit c && matchDigitsToEnd (d :: rest)

/-- The test `isInt` (App.js, line 7): `/^\d+$/.test(String(s || ""))` for a
string `s`. -/
def isInt (s : JSString) : Bool := matchDigitsToEnd s

/-- A value is truthy when it is present and not the empty string. -/
def truthy : Option JSString → Bool
  | some (_ :: _) => true
  | _ => false

/-- The message `e?.shortMessage || e?.message || fallback` of a caught error. -/
def errorMessage (e : JSError) (fallback : JSString) : JSString :=
  if truthy e.shortMessage then e.shortMessage.getD []
  else if truthy e.message then e.message.getD []
  else fallback

def errToast (msg : JSString) : Toast := ⟨js "err", msg⟩

def infoToast (msg : JSString) : Toast := ⟨js "info", msg⟩

def okToast (msg : JSString) : Toast := ⟨js "ok", msg⟩

/-- The rejection a joined promise reports when several reads reject: the one
that settles first, picked by the scheduler. -/
def firstRejection (sched : Nat) (e : JSError) (es : List JSError) : JSError :=
  (e :: es).getD (sched % (es.length + 1)) e

/-- The join `Promise.all([a, b, c])`: the three values when all fulfil, the
first rejection to settle otherwise. -/
def promiseAll3 {α β γ : Type} (sched : Nat) :
    Except JSError α → Except JSError β → Except JSError γ → Except JSError (α × β × γ)
  | .ok a, .ok b, .ok c => .ok (a, b, c)
  | .error e, .ok _, .ok _ => .error e
  | .ok _, .error e, .ok _ => .error e
  | .ok _, .ok _, .error e => .error e
  | .error e1, .error e2, .ok _ => .error (firstRejection sched e1 [e2])
  | .error e1, .ok _, .error e3 => .error (firstRejection sched e1 [e3])
  | .ok _, .error e2, .error e3 => .error (firstRejection sched e2 [e3])
  | .error e1, .error e2, .error e3 => .error (firstRejection sched e1 [e2, e3])

/-- The conversion `Number(b)` of a non-negative BigInt: the nearest double,
ties to even; the identity below 2^53. -/
def numberOfBigInt (n : Nat) : Nat :=
  if n < 2 ^ 53 then n
  else
    let e := Nat.log2 n - 52
    let q := n / 2 ^ e
    let r := n % 2 ^ e
    if 2 ^ e < 2 * r ∨ (2 * r = 2 ^ e ∧ q % 2 = 1) then (q + 1) * 2 ^ e else q * 2 ^ e

/-! ## The handlers -/

/-- The handler `loadRoles` (App.js, lines 64-74). -/
def loadRoles (env : Env) (s : AppState) : List Action :=
  if s.provider = false ∨ s.account = [] then []
  else
    .call .owner ::
      match env.owner with
      | .error _ => [.setToast (errToast (js "Failed to read roles"))]
      | .ok o =>
        .call (.isIssuer s.account) ::
          match env.isIssuer s.account with
          | .error _ => [.setToast (errToast (js "Failed to read roles"))]
          | .ok issuer => [.setOwner o, .setAmIssuer issuer]

/-- The handler `adminSetIssuer` (App.js, lines 89-103). -/
def adminSetIssuer (env : Env) (s : AppState) : List Action :=
  if s.signer = false then [.setToast (errToast (js "Connect wallet"))]
  else if env.isAddress s.issuerAddr = false then
    [.setToast (errToast (js "Bad issuer address"))]
  else
    .setToast (infoToast (js "Updating issuer...")) ::
    .call (.setIssuer s.issuerAddr s.issuerAllowed) ::
      match env.setIssuer s.issuerAddr s.issuerAllowed with
      | .error e => [.setToast (errToast (errorMessage e (js "setIssuer failed (must be owner)")))]
      | .ok tx =>
        .setTxHash tx.hash :: .call (.wait tx.hash) ::
          match tx.wait with
          | .error e =>
            [.setToast (errToast (errorMessage e (js "setIssuer failed (must be owner)")))]
          | .ok _ => .setToast (okToast (js "Issuer updated")) :: loadRoles env s

/-- The parsed log `mintCredential` looks for (App.js, lines 127-129): the logs
are parsed one by one, a log that does not parse counts as `null`, and the
first result that is not `null` and is named `CredentialMinted` is taken. -/
def findMinted (parseLog : Log → Option LogDescription) (logs : List Log) :
    Option (Option LogDescription) :=
  (logs.map parseLog).find? fun p =>
    match p with
    | some d => decide (d.name = js "CredentialMinted")
    | none => false

/-- What follows a confirmed mint (App.js, lines 127-132). -/
def afterReceipt (parseLog : Log → Option LogDescription) (logs : List Log) : List Action :=
  (match findMinted parseLog logs with
    | some (some d) =>
      match d.tokenId with
      | some t => [.setMintedId (decimal t)]
      | none => []
    | _ => []) ++
  [.setToast (okToast (js "Minted! Save tokenId + JSON used for hash."))]

/-- The object `meta` of `mintCredential` (App.js, lines 109-115): the form
fields, the connected account as issuer, and the time of the click as
`new Date().toISOString()` gives it. -/
def metadataOf (env : Env) (s : AppState) : Metadata :=
  { course := s.course, moduleId := s.moduleId, learner := s.learner,
    issuer := s.account, issuedAtISO := env.now }

/-- The handler `mintCredential` (App.js, lines 105-136).  The result is `none`
when the digest computation, which is outside the `try`, throws. -/
def mintCredential (env : Env) (s : AppState) : Option (List Action) :=
  if s.signer = false then some [.setToast (errToast (js "Connect wallet"))]
  else if env.isAddress s.learner = false then
    some [.setToast (errToast (js "Bad learner address"))]
  else
    match credHashOf (metadataOf env s) with
    | none => none
    | some credHash =>
      some (
        .setToast (infoToast (js "Minting credential NFT...")) ::
        .setMintedId [] ::
        .call (.mintCredential s.learner credHash s.uri) ::
          match env.mintCredential s.learner credHash s.uri with
          | .error e => [.setToast (errToast (errorMessage e (js "Mint failed (must be issuer)")))]
          | .ok tx =>
            .setTxHash tx.hash :: .call (.wait tx.hash) ::
              match tx.wait with
              | .error e =>
                [.setToast (errToast (errorMessage e (js "Mint failed (must be issuer)")))]
              | .ok logs => afterReceipt env.parseLog logs)

/-- The handler `verifyToken` (App.js, lines 138-167). -/
def verifyToken (env : Env) (s : AppState) : List Action :=
  if s.provider = false then [.setToast (errToast (js "Connect wallet"))]
  else if isInt s.tokenId = false then [.setToast (errToast (js "tokenId must be integer"))]
  else
    .setToast (infoToast (js "Loading token...")) ::
    .setCred none ::
    .setHashMatch none ::
    .call (.ownerOf s.tokenId) ::
    .call (.tokenURI s.tokenId) ::
    .call (.credentialOf s.tokenId) ::
      match promiseAll3 env.sched (env.ownerOf s.tokenId) (env.tokenURI s.tokenId)
          (env.credentialOf s.tokenId) with
      | .ok (ownerOf, uriOf, tuple) =>
        [.setCred (some
            { tokenId := s.tokenId, ownerOf := ownerOf, uriOf := uriOf,
              issuer := tuple.issuer, credHash := tuple.credHash,
              issuedAt := numberOfBigInt tuple.issuedAt, revoked := tuple.revoked }),
         .setToast (okToast (js "Loaded"))]
      | .error e => [.setToast (errToast (errorMessage e (js "Verify failed (not minted?)")))]

/-- The handler `checkHash` (App.js, lines 169-177). -/
def checkHash (s : AppState) : List Action :=
  match s.cred with
  | none => []
  | some cred =>
    match toUtf8Bytes s.jsonToCheck with
    | some bytes =>
      [.setHashMatch (some (decide (toLowerCase (keccak256 bytes) = toLowerCase cred.credHash)))]
    | none => [.setToast (errToast (js "Hash check failed"))]

/-- Modelled from the spec: the event query `read.queryFilter(filter, 0,
"latest")` of the ledger client with the filter `CredentialMinted(null, null,
account, null, null)`: "filtering `CredentialMinted` by the `learner` indexed
field over an address-specified block range (from genesis to latest),
returning matching events in ledger order". -/
def queryMinted (history : List LogDescription) (account : JSString) : List LogDescription :=
  history.filter fun d =>
    decide (d.name = js "CredentialMinted") && decide (d.learner = some account)

/-- The token id text of a queried log (`l.args.tokenId.toString()`). -/
def tokenIdText (d : LogDescription) : JSString :=
  match d.tokenId with
  | some t => decimal t
  | none => []

/-- The handler `loadMyTokens` (App.js, lines 179-194). -/
def loadMyTokens (env : Env) (s : AppState) : List Action :=
  if s.provider = false ∨ s.account = [] then []
  else
    .setToast (infoToast (js "Loading your minted credentials from events...")) ::
    .call (.queryMinted s.account) ::
      match env.queryError with
      | some e => [.setToast (errToast (errorMessage e (js "Failed to query events")))]
      | none =>
        let ids := (queryMinted env.history s.account).map tokenIdText
        [.setMyCreds ids,
         .setToast (okToast (js "Found " ++ decimal ids.length ++ js " credential(s)"))]

/-- The status pill of the verify tab (App.js, lines 246-248). -/
def verdict (cred : Cred) : JSString :=
  if cred.revoked then js "REVOKED" else js "VALID"

/-- The verdict the page shows (App.js, lines 233 and 243-248): on the verify
tab, when a credential is loaded. -/
def renderVerdict (s : AppState) : Option JSString :=
  if s.tab = js "verify" then s.cred.map verdict else none

/-! ## Reading back: JSON string literals and UTF-8 -/

/-- The value of a hexadecimal digit, in either case. -/
def hexVal (u : Nat) : Option Nat :=
  if 0x30 ≤ u ∧ u ≤ 0x39 then some (u - 0x30)
  else if 0x61 ≤ u ∧ u ≤ 0x66 then some (u - 0x57)
  else if 0x41 ≤ u ∧ u ≤ 0x46 then some (u - 0x37)
  else none

/-- The code unit a two-character escape `\x` stands for. -/
def unescape (x : Nat) : Option Nat :=
  if x = 0x22 then some 0x22
  else if x = 0x5C then some 0x5C
  else if x = 0x2F then some 0x2F
  else if x = 0x62 then some 0x08
  else if x = 0x66 then some 0x0C
  else if x = 0x6E then some 0x0A
  else if x = 0x72 then some 0x0D
  else if x = 0x74 then some 0x09
  else none

/-- Reads a JSON string literal after its opening quote (the JSON grammar of
`JSON.parse`): the string value and the text after the closing quote. -/
def unquoteBody : JSString → Option (JSString × JSString)
  | [] => none
  | u :: X =>
    if u = 0x22 then some ([], X)
    else if u = 0x5C then
      match X with
      | [] => none
      | x :: X1 =>
        if x = 0x75 then
          match X1 with
          | a :: b :: c :: d :: X2 =>
            match hexVal a, hexVal b, hexVal c, hexVal d, unquoteBody X2 with
            | some va, some vb, some vc, some vd, some (s, r) =>
              some ((va * 4096 + vb * 256 + vc * 16 + vd) :: s, r)
            | _, _, _, _, _ => none
          | _ => none
        else
          match unescape x, unquoteBody X1 with
          | some v, some (s, r) => some (v :: s, r)
          | _, _ => none
    else if u < 0x20 then none
    else
      match unquoteBody X with
      | some (s, r) => some (u :: s, r)
      | none => none

/-- Reads UTF-8 back into code units, at most `fuel` sequences: one unit for a
sequence of one, two or three bytes, a surrogate pair for a sequence of four. -/
def decodeUtf8Aux : Nat → List Nat → Option JSString
  | 0, bs => if bs = [] then some [] else none
  | fuel + 1, bs =>
    match bs with
    | [] => some []
    | b :: rest =>
      if b < 0x80 then (decodeUtf8Aux fuel rest).map fun s => b :: s
      else if b < 0xC0 then none
      else if b < 0xE0 then
        match rest with
        | b2 :: rest2 =>
          (decodeUtf8Aux fuel rest2).map fun s => ((b - 0xC0) * 64 + (b2 - 0x80)) :: s
        | _ => none
      else if b < 0xF0 then
        match rest with
        | b2 :: b3 :: rest3 =>
          (decodeUtf8Aux fuel rest3).map fun s =>
            ((b - 0xE0) * 4096 + (b2 - 0x80) * 64 + (b3 - 0x80)) :: s
        | _ => none
      else
        match rest with
        | b2 :: b3 :: b4 :: rest4 =>
          (decodeUtf8Aux fuel rest4).map fun s =>
            (0xD800 + ((b - 0xF0) * 0x40000 + (b2 - 0x80) * 0x1000 + (b3 - 0x80) * 64 +
                (b4 - 0x80) - 0x10000) / 0x400) ::
            (0xDC00 + ((b - 0xF0) * 0x40000 + (b2 - 0x80) * 0x1000 + (b3 - 0x80) * 64 +
                (b4 - 0x80) - 0x10000) % 0x400) :: s
        | _ => none


/-! ## Devices of the proofs -/

/-- The bytes of a code unit that is not a high surrogate. -/
def unitBytes (c : Nat) : List Nat :=
  if c < 0x80 then [c]
  else if c < 0x800 then [c / 64 + 0xC0, c % 64 + 0x80]
  else [c / 0x1000 + 0xE0, c / 64 % 64 + 0x80, c % 64 + 0x80]

/-- The four bytes of a surrogate pair. -/
def pairBytes (c c2 : Nat) : List Nat :=
  [(0x10000 + (c % 0x400) * 0x400 + c2 % 0x400) / 0x40000 + 0xF0,
   (0x10000 + (c % 0x400) * 0x400 + c2 % 0x400) / 0x1000 % 64 + 0x80,
   (0x10000 + (c % 0x400) * 0x400 + c2 % 0x400) / 64 % 64 + 0x80,
   (0x10000 + (c % 0x400) * 0x400 + c2 % 0x400) % 64 + 0x80]


/-- Every field of the metadata is a string of 16-bit code units. -/
def Metadata.WellFormed (m : Metadata) : Prop :=
  CredChain.WellFormed m.course ∧ CredChain.WellFormed m.moduleId ∧
  CredChain.WellFormed m.learner ∧ CredChain.WellFormed m.issuer ∧
  CredChain.WellFormed m.issuedAtISO

instance (m : Metadata) : Decidable m.WellFormed := by
  unfold Metadata.WellFormed; infer_instance

/-- The events of a ledger history that are `CredentialMinted` with the given
learner, as the claim words it: the token ids of the events whose learner is
the account, one per matching event, in ledger order. -/
def tokenIdsMintedTo (history : List LogDescription) (account : JSString) : List JSString :=
  history.filterMap fun d =>
    match d with
    | .CredentialMinted t _ l _ _ => if l = account then some (decimal t) else none
    | _ => none

/-! ## The reading of the claimed payload as the spec words it -/

/-- White space of the JSON grammar: space, tab, line feed, carriage return. -/
def isJsonSpace (u : Nat) : Bool :=
  decide (u = 0x20) || decide (u = 0x09) || decide (u = 0x0A) || decide (u = 0x0D)

/-- Drops leading JSON white space. -/
def skipSpace : JSString → JSString
  | [] => []
  | u :: rest => if isJsonSpace u = true then skipSpace rest else u :: rest

/-- Reads a quoted string after optional white space. -/
def parseString (text : JSString) : Option (JSString × JSString) :=
  match skipSpace text with
  | [] => none
  | u :: rest => if u = 0x22 then unquoteBody rest else none

/-- Reads one expected punctuation unit after optional white space. -/
def expectUnit (u : Nat) (text : JSString) : Option JSString :=
  match skipSpace text with
  | [] => none
  | v :: rest => if v = u then some rest else none

/-- Reads the members `"key": "value"` of an object up to its closing brace:
the pairs in order and the text after the brace. -/
def parseMembers : Nat → JSString → Option (List (JSString × JSString) × JSString)
  | 0, _ => none
  | fuel + 1, text =>
    match parseString text with
    | none => none
    | some (key, t1) =>
      match expectUnit 0x3A t1 with
      | none => none
      | some t2 =>
        match parseString t2 with
        | none => none
        | some (value, t3) =>
          match expectUnit 0x2C t3 with
          | some t4 =>
            match parseMembers fuel t4 with
            | some (ms, r) => some ((key, value) :: ms, r)
            | none => none
          | none =>
            match expectUnit 0x7D t3 with
            | some r => some ([(key, value)], r)
            | none => none

/-- The value of a key among parsed members; a repeated key takes its last value. -/
def lookupMember (key : String) (ms : List (JSString × JSString)) : Option JSString :=
  ms.reverse.lookup (js key)

/-- Modelled from the spec: the claimed payload "parsed as the same canonical
metadata shape": the text is a JSON object whose members are strings, read
with white space allowed between tokens and the keys in any order, and the
five metadata fields are taken from it.  The source has no such parser. -/
def parseMetadata (text : JSString) : Option Metadata :=
  match expectUnit 0x7B text with
  | none => none
  | some t1 =>
    match parseMembers text.length t1 with
    | none => none
    | some (ms, r) =>
      if skipSpace r = [] then
        match lookupMember "course" ms, lookupMember "moduleId" ms, lookupMember "learner" ms,
            lookupMember "issuer" ms, lookupMember "issuedAtISO" ms with
        | some c, some mo, some l, some i, some t => some ⟨c, mo, l, i, t⟩
        | _, _, _, _, _ => none
      else none

/-- Modelled from the spec: `checkIntegrity(claimedPayload, storedDigest)` as
the spec words it: the digest of the payload "parsed as the same canonical
metadata shape", compared case-insensitively with the stored digest. -/
def specCheckIntegrity (text storedDigest : JSString) : Option Bool :=
  match parseMetadata text with
  | none => none
  | some m =>
    match credHashOf m with
    | none => none
    | some h => some (decide (toLowerCase h = toLowerCase storedDigest))

/-- The state of `App` before any interaction (App.js, lines 10-41). -/
def initialState : AppState :=
  { tab := js "verify", provider := false, signer := false, account := [], owner := [],
    amIssuer := false, toast := ⟨js "idle", []⟩, issuerAddr := [], issuerAllowed := true,
    learner := [], course := js "Entrepreneurship Basics", moduleId := js "M1", uri := [],
    mintedId := [], txHash := [], tokenId := [], cred := none, jsonToCheck := [],
    hashMatch := none, myCreds := [] }

/-- The metadata of the example scenario of the spec, with the contract address
of contract.js standing for learner and issuer. -/
def sampleMetadata : Metadata :=
  { course := js "Entrepreneurship Basics", moduleId := js "M1",
    learner := js "0x8CB1654cd2a85f572F80A360B78eB24743C0F356",
    issuer := js "0x8CB1654cd2a85f572F80A360B78eB24743C0F356",
    issuedAtISO := js "2024-01-01T00:00:00.000Z" }

/-- The digest of the sample metadata. -/
def sampleDigest : JSString :=
  js "0xf9161bf0ec75f4159f0419d75ebbcd46c39806ba95d1b2924798eac4898f7a1f"

/-- The sample metadata as JSON with a space after each colon and comma. -/
def spacedPayload : JSString :=
  js "\x7b\"course\": \"Entrepreneurship Basics\", \"moduleId\": \"M1\", \"learner\": \"0x8CB1654cd2a85f572F80A360B78eB24743C0F356\", \"issuer\": \"0x8CB1654cd2a85f572F80A360B78eB24743C0F356\", \"issuedAtISO\": \"2024-01-01T00:00:00.000Z\"\x7d"

/-- The sample metadata as JSON with the keys in another order. -/
def reorderedPayload : JSString :=
  js "\x7b\"moduleId\":\"M1\",\"course\":\"Entrepreneurship Basics\",\"learner\":\"0x8CB1654cd2a85f572F80A360B78eB24743C0F356\",\"issuer\":\"0x8CB1654cd2a85f572F80A360B78eB24743C0F356\",\"issuedAtISO\":\"2024-01-01T00:00:00.000Z\"\x7d"

/-- A verified credential with the given stored digest. -/
def sampleCred (credHash : JSString) : Cred :=
  { tokenId := js "0", ownerOf := sampleMetadata.learner, uriOf := [],
    issuer := sampleMetadata.issuer, credHash := credHash, issuedAt := 1704067200,
    revoked := false }

/-- The verify tab with a credential loaded and a text pasted. -/
def checkingState (credHash payload : JSString) : AppState :=
  { initialState with
    provider := true
    cred := some (sampleCred credHash)
    jsonToCheck := payload }

/-! ## The example scenario of the spec -/

/-- The learner account of the example scenario. -/
def learnerL : JSString := js "0x8CB1654cd2a85f572F80A360B78eB24743C0F356"

/-- Another account. -/
def otherAccount : JSString := js "0x000000000000000000000000000000000000dEaD"

/-- The sample metadata with `moduleId` changed to `M2`. -/
def sampleMetadataM2 : Metadata := { sampleMetadata with moduleId := js "M2" }

/-- The digest of the sample metadata with `moduleId` `M2`. -/
def sampleDigestM2 : JSString :=
  js "0xca67da9dd7e9f9c399bc40a1292396592d4a65b846ce26163bba66cb1ec07cf9"

/-- The rejection of a read of a token that was never minted. -/
def notMinted : JSError := { shortMessage := some (js "execution reverted"), message := none }

/-- A log of the receipt that is not an event of the contract interface. -/
def foreignLog : Log := { address := otherAccount, topics := [], data := [] }

/-- The log of the receipt that carries the `CredentialMinted` event. -/
def mintedLog : Log :=
  { address := js "0x8CB1654cd2a85f572F80A360B78eB24743C0F356"
    topics := [js "0x6117ee328cd8fad68016b0cf7353730acd807a9f19d5586ba4da5efbfbe4fb25"]
    data := [] }

/-- The transaction of the example mint: confirmed, with two logs. -/
def sampleTx : TxResponse := { hash := js "0xabc123", wait := .ok [foreignLog, mintedLog] }

/-- A ledger after two mints to `learnerL` (tokens 0 and 2) and one to another
account (token 1); only token 0 can be read. -/
def sampleEnv : Env :=
  { isAddress := fun a => decide (a = learnerL) || decide (a = otherAccount)
    now := js "2024-01-01T00:00:00.000Z"
    owner := .ok learnerL
    isIssuer := fun _ => .ok true
    setIssuer := fun _ _ => .ok sampleTx
    mintCredential := fun _ _ _ => .ok sampleTx
    ownerOf := fun id => if id = js "0" then .ok learnerL else .error notMinted
    tokenURI := fun id => if id = js "0" then .ok (js "ipfs://cred0") else .error notMinted
    credentialOf := fun id =>
      if id = js "0" then .ok ⟨learnerL, sampleDigest, 1704067200, false⟩
      else .error notMinted
    parseLog := fun l =>
      if l = mintedLog then some (.CredentialMinted 0 learnerL learnerL sampleDigest []) else none
    history :=
      [.CredentialMinted 0 learnerL learnerL sampleDigest [],
       .CredentialMinted 1 learnerL otherAccount sampleDigestM2 [],
       .IssuerUpdated otherAccount true,
       .CredentialMinted 2 learnerL learnerL sampleDigestM2 []]
    queryError := none
    sched := 0 }

/-- The page with the wallet of `learnerL` connected. -/
def connectedState : AppState :=
  { initialState with
    provider := true
    signer := true
    account := learnerL }

/-! # Theorems -/

set_option maxRecDepth 100000

/-! ## Facts about the helpers -/

theorem matchDigitsToEnd_iff (s : JSString) :
    matchDigitsToEnd s = true ↔ s ≠ [] ∧ ∀ c ∈ s, 0x30 ≤ c ∧ c ≤ 0x39 := by
  induction s with
  | nil => simp [matchDigitsToEnd]
  | cons c rest ih =>
    cases rest with
    | nil => simp [matchDigitsToEnd, isDigit]
    | cons d rest =>
      simp only [matchDigitsToEnd, Bool.and_eq_true, ih, isDigit, decide_eq_true_eq]
      simp

theorem firstRejection_mem (sched : Nat) (e : JSError) (es : List JSError) :
    firstRejection sched e es ∈ e :: es := by
  unfold firstRejection
  have h : sched % (es.length + 1) < (e :: es).length := by
    simp only [List.length_cons]; exact Nat.mod_lt _ (Nat.succ_pos _)
  rw [List.getD_eq_getElem _ _ h]
  exact List.getElem_mem _

/-- When a read rejects, the join rejects, with the error of a read that rejected. -/
theorem promiseAll3_error {α β γ : Type} (sched : Nat)
    (r1 : Except JSError α) (r2 : Except JSError β) (r3 : Except JSError γ)
    (h : (∃ e, r1 = .error e) ∨ (∃ e, r2 = .error e) ∨ (∃ e, r3 = .error e)) :
    ∃ e, promiseAll3 sched r1 r2 r3 = .error e ∧
      (r1 = .error e ∨ r2 = .error e ∨ r3 = .error e) := by
  rcases r1 with e1 | a <;> rcases r2 with e2 | b <;> rcases r3 with e3 | c
  · have h2 := firstRejection_mem sched e1 [e2, e3]
    refine ⟨_, rfl, ?_⟩
    simp only [List.mem_cons, List.mem_singleton, List.not_mem_nil, or_false] at h2
    rcases h2 with h2 | h2 | h2 <;> simp [h2]
  · have h2 := firstRejection_mem sched e1 [e2]
    refine ⟨_, rfl, ?_⟩
    simp only [List.mem_cons, List.mem_singleton, List.not_mem_nil, or_false] at h2
    rcases h2 with h2 | h2 <;> simp [h2]
  · have h2 := firstRejection_mem sched e1 [e3]
    refine ⟨_, rfl, ?_⟩
    simp only [List.mem_cons, List.mem_singleton, List.not_mem_nil, or_false] at h2
    rcases h2 with h2 | h2 <;> simp [h2]
  · exact ⟨e1, rfl, Or.inl rfl⟩
  · have h2 := firstRejection_mem sched e2 [e3]
    refine ⟨_, rfl, ?_⟩
    simp only [List.mem_cons, List.mem_singleton, List.not_mem_nil, or_false] at h2
    rcases h2 with h2 | h2 <;> simp [h2]
  · exact ⟨e2, rfl, Or.inr (Or.inl rfl)⟩
  · exact ⟨e3, rfl, Or.inr (Or.inr rfl)⟩
  · exfalso
    rcases h with ⟨e, h⟩ | ⟨e, h⟩ | ⟨e, h⟩ <;> cases h

/-! ## The encoder never throws on serialized metadata -/

theorem isHighSurrogate_iff (c : Nat) : isHighSurrogate c = true ↔ 0xD800 ≤ c ∧ c < 0xDC00 := by
  simp [isHighSurrogate]

theorem isLowSurrogate_iff (c : Nat) : isLowSurrogate c = true ↔ 0xDC00 ≤ c ∧ c < 0xE000 := by
  simp [isLowSurrogate]

theorem toUtf8Bytes_unit (c : Nat) (rest : JSString) (h : isHighSurrogate c = false) :
    toUtf8Bytes (c :: rest) = (toUtf8Bytes rest).map fun bs => unitBytes c ++ bs := by
  cases rest with
  | nil => rw [toUtf8Bytes.eq_2, toUtf8Bytes.eq_1]; unfold unitBytes; split_ifs <;> simp_all
  | cons d rest => rw [toUtf8Bytes.eq_3]; unfold unitBytes; split_ifs <;> simp_all

theorem toUtf8Bytes_pair (c d : Nat) (rest : JSString)
    (hc : isHighSurrogate c = true) (hd : isLowSurrogate d = true) :
    toUtf8Bytes (c :: d :: rest) = (toUtf8Bytes rest).map fun bs => pairBytes c d ++ bs := by
  have hc2 := (isHighSurrogate_iff c).mp hc
  have h1 : ¬ c < 0x80 := by omega
  have h2 : ¬ c < 0x800 := by omega
  rw [toUtf8Bytes]
  simp [h1, h2, hc, hd, pairBytes]

theorem toUtf8Bytes_lone_nil (c : Nat) (hc : isHighSurrogate c = true) :
    toUtf8Bytes [c] = none := by
  have hc2 := (isHighSurrogate_iff c).mp hc
  have h1 : ¬ c < 0x80 := by omega
  have h2 : ¬ c < 0x800 := by omega
  rw [toUtf8Bytes]
  simp [h1, h2, hc]

theorem toUtf8Bytes_lone_cons (c d : Nat) (rest : JSString)
    (hc : isHighSurrogate c = true) (hd : isLowSurrogate d = false) :
    toUtf8Bytes (c :: d :: rest) = none := by
  have hc2 := (isHighSurrogate_iff c).mp hc
  have h1 : ¬ c < 0x80 := by omega
  have h2 : ¬ c < 0x800 := by omega
  rw [toUtf8Bytes]
  simp [h1, h2, hc, hd]

theorem toUtf8Bytes_cons_isSome (c : Nat) (rest : JSString) (h : isHighSurrogate c = false) :
    (toUtf8Bytes (c :: rest)).isSome = (toUtf8Bytes rest).isSome := by
  rw [toUtf8Bytes_unit c rest h]; simp

theorem toUtf8Bytes_pair_isSome (c d : Nat) (rest : JSString)
    (hc : isHighSurrogate c = true) (hd : isLowSurrogate d = true) :
    (toUtf8Bytes (c :: d :: rest)).isSome = (toUtf8Bytes rest).isSome := by
  rw [toUtf8Bytes_pair c d rest hc hd]; simp

theorem toUtf8Bytes_append_isSome (l t : JSString) (h : ∀ u ∈ l, isHighSurrogate u = false) :
    (toUtf8Bytes (l ++ t)).isSome = (toUtf8Bytes t).isSome := by
  induction l with
  | nil => rfl
  | cons u l ih =>
    rw [List.cons_append, toUtf8Bytes_cons_isSome u _ (h u (List.mem_cons_self _ _))]
    exact ih fun v hv => h v (List.mem_cons_of_mem _ hv)

theorem hexDigit_lt (n : Nat) (h : n < 16) : hexDigit n < 128 := by
  unfold hexDigit; split_ifs <;> omega

theorem unicodeEscape_lt (c : Nat) : ∀ u ∈ unicodeEscape c, u < 128 := by
  intro u hu
  have h1 := hexDigit_lt (c / 4096 % 16) (Nat.mod_lt _ (by decide))
  have h2 := hexDigit_lt (c / 256 % 16) (Nat.mod_lt _ (by decide))
  have h3 := hexDigit_lt (c / 16 % 16) (Nat.mod_lt _ (by decide))
  have h4 := hexDigit_lt (c % 16) (Nat.mod_lt _ (by decide))
  simp only [unicodeEscape, List.mem_cons, List.mem_singleton, List.not_mem_nil,
    or_false] at hu
  rcases hu with rfl | rfl | rfl | rfl | rfl | rfl <;> omega

/-- The three ways `quoteUnit` writes a code unit: a two-character escape, a
`\uXXXX` escape, or the unit itself. -/
theorem quoteUnit_cases (c : Nat) :
    (∃ x, quoteUnit c = [0x5C, x] ∧ x ≠ 0x75 ∧ unescape x = some c ∧ x < 128) ∨
    (quoteUnit c = unicodeEscape c ∧ c < 65536) ∨
    (quoteUnit c = [c] ∧ c ≠ 0x22 ∧ c ≠ 0x5C ∧ ¬ c < 0x20 ∧
      isHighSurrogate c = false ∧ isLowSurrogate c = false) := by
  by_cases h1 : c = 0x08
  · exact Or.inl ⟨0x62, by subst h1; decide⟩
  by_cases h2 : c = 0x09
  · exact Or.inl ⟨0x74, by subst h2; decide⟩
  by_cases h3 : c = 0x0A
  · exact Or.inl ⟨0x6E, by subst h3; decide⟩
  by_cases h4 : c = 0x0C
  · exact Or.inl ⟨0x66, by subst h4; decide⟩
  by_cases h5 : c = 0x0D
  · exact Or.inl ⟨0x72, by subst h5; decide⟩
  by_cases h6 : c = 0x22
  · exact Or.inl ⟨0x22, by subst h6; decide⟩
  by_cases h7 : c = 0x5C
  · exact Or.inl ⟨0x5C, by subst h7; decide⟩
  by_cases h8 : c < 0x20 ∨ isHighSurrogate c = true ∨ isLowSurrogate c = true
  · refine Or.inr (Or.inl ⟨?_, ?_⟩)
    · unfold quoteUnit
      rw [if_neg h1, if_neg h2, if_neg h3, if_neg h4, if_neg h5, if_neg h6, if_neg h7,
        if_pos h8]
    · rw [isHighSurrogate_iff, isLowSurrogate_iff] at h8
      omega
  · refine Or.inr (Or.inr ⟨?_, h6, h7, ?_, ?_, ?_⟩)
    · unfold quoteUnit
      rw [if_neg h1, if_neg h2, if_neg h3, if_neg h4, if_neg h5, if_neg h6, if_neg h7,
        if_neg h8]
    · exact fun h => h8 (Or.inl h)
    · cases hh : isHighSurrogate c with
      | true => exact absurd (Or.inr (Or.inl hh)) h8
      | false => rfl
    · cases hl : isLowSurrogate c with
      | true => exact absurd (Or.inr (Or.inr hl)) h8
      | false => rfl

theorem not_high_of_lt (u : Nat) (h : u < 128) : isHighSurrogate u = false := by
  cases hh : isHighSurrogate u with
  | true => rw [isHighSurrogate_iff] at hh; omega
  | false => rfl

theorem quoteUnit_not_high (c : Nat) : ∀ u ∈ quoteUnit c, isHighSurrogate u = false := by
  intro u hu
  rcases quoteUnit_cases c with ⟨x, hq, _, _, hx⟩ | ⟨hq, _⟩ | ⟨hq, _, _, _, hh, _⟩
  · rw [hq] at hu
    simp only [List.mem_cons, List.mem_singleton, List.not_mem_nil, or_false] at hu
    rcases hu with rfl | rfl
    · decide
    · exact not_high_of_lt _ hx
  · rw [hq] at hu
    exact not_high_of_lt _ (unicodeEscape_lt c u hu)
  · rw [hq] at hu
    simp only [List.mem_singleton] at hu
    rw [hu]; exact hh

theorem quoteBody_pair (c d : Nat) (rest : JSString)
    (hc : isHighSurrogate c = true) (hd : isLowSurrogate d = true) :
    quoteBody (c :: d :: rest) = c :: d :: quoteBody rest := by
  rw [quoteBody]; simp [hc, hd]

theorem quoteBody_unit (c d : Nat) (rest : JSString)
    (h : ¬ (isHighSurrogate c = true ∧ isLowSurrogate d = true)) :
    quoteBody (c :: d :: rest) = quoteUnit c ++ quoteBody (d :: rest) := by
  rw [quoteBody]; simp only [h, if_false]

theorem quoteBody_single (c : Nat) : quoteBody [c] = quoteUnit c := by
  rw [quoteBody]

theorem toUtf8Bytes_quoteBody_isSome (s : JSString) : ∀ t : JSString,
    (toUtf8Bytes (quoteBody s ++ t)).isSome = (toUtf8Bytes t).isSome := by
  induction s using quoteBody.induct with
  | case1 => intro t; rfl
  | case2 c =>
    intro t
    rw [quoteBody_single]
    exact toUtf8Bytes_append_isSome _ _ (quoteUnit_not_high c)
  | case3 c d rest h ih =>
    intro t
    rw [quoteBody_pair c d rest h.1 h.2, List.cons_append, List.cons_append,
      toUtf8Bytes_pair_isSome c d _ h.1 h.2]
    exact ih t
  | case4 c d rest h ih =>
    intro t
    rw [quoteBody_unit c d rest h, List.append_assoc,
      toUtf8Bytes_append_isSome _ _ (quoteUnit_not_high c)]
    exact ih t

theorem toUtf8Bytes_quoteJSONString_isSome (s t : JSString) :
    (toUtf8Bytes (quoteJSONString s ++ t)).isSome = (toUtf8Bytes t).isSome := by
  unfold quoteJSONString
  rw [List.cons_append, toUtf8Bytes_cons_isSome _ _ (by decide), List.append_assoc,
    toUtf8Bytes_quoteBody_isSome, List.singleton_append,
    toUtf8Bytes_cons_isSome _ _ (by decide)]

theorem toUtf8Bytes_serializeProperty_isSome (key : String) (v t : JSString) :
    (toUtf8Bytes (serializeProperty key v ++ t)).isSome = (toUtf8Bytes t).isSome := by
  unfold serializeProperty
  rw [List.append_assoc, toUtf8Bytes_quoteJSONString_isSome, List.cons_append,
    toUtf8Bytes_cons_isSome _ _ (by decide), toUtf8Bytes_quoteJSONString_isSome]

/-- The digest computation of `mintCredential` never throws: the serialized
metadata has no lone surrogate, so it always has a UTF-8 encoding. -/
theorem toUtf8Bytes_stringify_isSome (m : Metadata) :
    (toUtf8Bytes (stringify m)).isSome = true := by
  unfold stringify
  rw [toUtf8Bytes_cons_isSome _ _ (by decide), toUtf8Bytes_serializeProperty_isSome,
    toUtf8Bytes_cons_isSome _ _ (by decide), toUtf8Bytes_serializeProperty_isSome,
    toUtf8Bytes_cons_isSome _ _ (by decide), toUtf8Bytes_serializeProperty_isSome,
    toUtf8Bytes_cons_isSome _ _ (by decide), toUtf8Bytes_serializeProperty_isSome,
    toUtf8Bytes_cons_isSome _ _ (by decide), toUtf8Bytes_serializeProperty_isSome,
    toUtf8Bytes_cons_isSome _ _ (by decide)]
  rfl

theorem credHashOf_eq (m : Metadata) :
    ∃ b, toUtf8Bytes (stringify m) = some b ∧ credHashOf m = some (keccak256 b) := by
  have h := toUtf8Bytes_stringify_isSome m
  obtain ⟨b, hb⟩ := Option.isSome_iff_exists.mp h
  exact ⟨b, hb, by simp [credHashOf, hb]⟩

/-! ## Serialization can be read back -/

theorem hexVal_hexDigit (n : Nat) (h : n < 16) : hexVal (hexDigit n) = some n := by
  unfold hexVal hexDigit
  split_ifs <;> first | omega | (congr 1; omega)

theorem unquoteBody_plain (u : Nat) (X : JSString) (h1 : u ≠ 0x22) (h2 : u ≠ 0x5C)
    (h3 : ¬ u < 0x20) :
    unquoteBody (u :: X) = (unquoteBody X).map fun p => (u :: p.1, p.2) := by
  rw [unquoteBody.eq_def]
  simp only [h1, h2, h3, if_false]
  cases unquoteBody X <;> rfl

theorem unquoteBody_short (x v : Nat) (X : JSString) (hx : x ≠ 0x75) (hv : unescape x = some v) :
    unquoteBody (0x5C :: x :: X) = (unquoteBody X).map fun p => (v :: p.1, p.2) := by
  rw [unquoteBody.eq_def]
  simp only [hx, hv, if_false]
  cases unquoteBody X <;> simp

theorem unquoteBody_unicode (c : Nat) (X : JSString) (hc : c < 65536) :
    unquoteBody (unicodeEscape c ++ X) = (unquoteBody X).map fun p => (c :: p.1, p.2) := by
  rw [unquoteBody.eq_def]
  have e : (c / 4096 % 16) * 4096 + (c / 256 % 16) * 256 + (c / 16 % 16) * 16 + c % 16 = c := by
    omega
  simp only [unicodeEscape, List.cons_append, List.nil_append,
    hexVal_hexDigit _ (Nat.mod_lt _ (by decide : 0 < 16))]
  cases unquoteBody X <;> simp [e]

/-- Reading back one quoted code unit. -/
theorem unquoteBody_quoteUnit (c : Nat) (X : JSString) :
    unquoteBody (quoteUnit c ++ X) = (unquoteBody X).map fun p => (c :: p.1, p.2) := by
  rcases quoteUnit_cases c with ⟨x, hq, hx, hv, _⟩ | ⟨hq, hc⟩ | ⟨hq, h1, h2, h3, _, _⟩
  · rw [hq]
    exact unquoteBody_short x c X hx hv
  · rw [hq]
    exact unquoteBody_unicode c X hc
  · rw [hq]
    exact unquoteBody_plain c X h1 h2 h3

/-- Reading back the text between the quotes: what `JSON.stringify` writes for
a string is read back, up to the closing quote, as that string. -/
theorem unquoteBody_quoteBody (s : JSString) : ∀ r : JSString,
    unquoteBody (quoteBody s ++ 0x22 :: r) = some (s, r) := by
  induction s using quoteBody.induct with
  | case1 => intro r; rw [unquoteBody.eq_def]; simp [quoteBody]
  | case2 c =>
    intro r
    rw [quoteBody_single, unquoteBody_quoteUnit]
    rw [unquoteBody.eq_def]; simp
  | case3 c d rest h ih =>
    intro r
    have hc := (isHighSurrogate_iff c).mp h.1
    have hd := (isLowSurrogate_iff d).mp h.2
    rw [quoteBody_pair c d rest h.1 h.2, List.cons_append, List.cons_append,
      unquoteBody_plain c _ (by omega) (by omega) (by omega),
      unquoteBody_plain d _ (by omega) (by omega) (by omega), ih r]
    rfl
  | case4 c d rest h ih =>
    intro r
    rw [quoteBody_unit c d rest h, List.append_assoc, unquoteBody_quoteUnit, ih r]
    rfl

/-- Two quoted strings followed by anything are equal only for the same string
and the same continuation. -/
theorem quoteJSONString_append_inj (a b r1 r2 : JSString)
    (h : quoteJSONString a ++ r1 = quoteJSONString b ++ r2) : a = b ∧ r1 = r2 := by
  unfold quoteJSONString at h
  simp only [List.cons_append, List.append_assoc, List.singleton_append, List.cons.injEq,
    true_and, List.nil_append] at h
  have h1 := unquoteBody_quoteBody a r1
  rw [h, unquoteBody_quoteBody b r2] at h1
  simp only [Option.some.injEq, Prod.mk.injEq] at h1
  exact ⟨h1.1.symm, h1.2.symm⟩

theorem serializeProperty_append_inj (key : String) (a b r1 r2 : JSString)
    (h : serializeProperty key a ++ r1 = serializeProperty key b ++ r2) : a = b ∧ r1 = r2 := by
  unfold serializeProperty at h
  simp only [List.append_assoc, List.cons_append, List.append_cancel_left_eq,
    List.cons.injEq, true_and] at h
  exact quoteJSONString_append_inj a b r1 r2 h

/-- The serialization `JSON.stringify(meta)` is injective. -/
theorem stringify_injective (m1 m2 : Metadata) (h : stringify m1 = stringify m2) : m1 = m2 := by
  unfold stringify at h
  simp only [List.cons.injEq, true_and] at h
  obtain ⟨h1, h⟩ := serializeProperty_append_inj _ _ _ _ _ h
  simp only [List.cons.injEq, true_and] at h
  obtain ⟨h2, h⟩ := serializeProperty_append_inj _ _ _ _ _ h
  simp only [List.cons.injEq, true_and] at h
  obtain ⟨h3, h⟩ := serializeProperty_append_inj _ _ _ _ _ h
  simp only [List.cons.injEq, true_and] at h
  obtain ⟨h4, h⟩ := serializeProperty_append_inj _ _ _ _ _ h
  simp only [List.cons.injEq, true_and] at h
  obtain ⟨h5, _⟩ := serializeProperty_append_inj _ _ _ _ _ h
  cases m1; cases m2
  simp_all

theorem decodeUtf8Aux_nil (fuel : Nat) : decodeUtf8Aux fuel [] = some [] := by
  cases fuel <;> simp [decodeUtf8Aux]

theorem decodeUtf8Aux_unit (c : Nat) (hc : c < 65536) (fuel : Nat) (bs : List Nat) :
    decodeUtf8Aux (fuel + 1) (unitBytes c ++ bs) =
      (decodeUtf8Aux fuel bs).map fun s => c :: s := by
  unfold unitBytes
  split_ifs with h1 h2
  · rw [decodeUtf8Aux.eq_def]; simp [h1]
  · have a1 : ¬ c / 64 + 192 < 128 := by omega
    have a2 : ¬ c / 64 + 192 < 192 := by omega
    have a3 : c / 64 + 192 < 224 := by omega
    have a4 : c / 64 * 64 + c % 64 = c := by omega
    rw [decodeUtf8Aux.eq_def]; simp [a1, a2, a3, a4]
  · have a1 : ¬ c / 4096 + 224 < 128 := by omega
    have a2 : ¬ c / 4096 + 224 < 192 := by omega
    have a3 : ¬ c / 4096 + 224 < 224 := by omega
    have a4 : c / 4096 + 224 < 240 := by omega
    have a5 : c / 4096 * 4096 + c / 64 % 64 * 64 + c % 64 = c := by omega
    rw [decodeUtf8Aux.eq_def]; simp [a1, a2, a3, a4, a5]

theorem decodeUtf8Aux_pair (c d : Nat) (hc : isHighSurrogate c = true)
    (hd : isLowSurrogate d = true) (fuel : Nat) (bs : List Nat) :
    decodeUtf8Aux (fuel + 1) (pairBytes c d ++ bs) =
      (decodeUtf8Aux fuel bs).map fun s => c :: d :: s := by
  rw [isHighSurrogate_iff] at hc
  rw [isLowSurrogate_iff] at hd
  unfold pairBytes
  generalize hp : 0x10000 + (c % 0x400) * 0x400 + d % 0x400 = p
  have a1 : ¬ p / 262144 + 240 < 128 := by omega
  have a2 : ¬ p / 262144 + 240 < 192 := by omega
  have a3 : ¬ p / 262144 + 240 < 224 := by omega
  have a4 : ¬ p / 262144 + 240 < 240 := by omega
  have a5 : p / 262144 * 262144 + p / 4096 % 64 * 4096 + p / 64 % 64 * 64 + p % 64 = p := by
    omega
  have a6 : 55296 + (p - 65536) / 1024 = c := by omega
  have a7 : 56320 + (p - 65536) % 1024 = d := by omega
  rw [decodeUtf8Aux.eq_def]; simp [a1, a2, a3, a4, a5, a6, a7]

/-- Reading back the encoding: the bytes `toUtf8Bytes` produces for a string of
16-bit code units decode to that string. -/
theorem decodeUtf8Aux_toUtf8Bytes (a : JSString) : WellFormed a → ∀ x : List Nat,
    toUtf8Bytes a = some x → ∀ fuel, a.length ≤ fuel → decodeUtf8Aux fuel x = some a := by
  induction a using quoteBody.induct with
  | case1 =>
    intro _ x hx fuel _
    rw [toUtf8Bytes] at hx
    cases hx
    exact decodeUtf8Aux_nil fuel
  | case2 c =>
    intro hw x hx fuel hf
    have hc : c < 65536 := hw c (List.mem_singleton_self c)
    cases hh : isHighSurrogate c with
    | true => rw [toUtf8Bytes_lone_nil c hh] at hx; cases hx
    | false =>
      rw [toUtf8Bytes_unit c [] hh, toUtf8Bytes] at hx
      simp only [Option.map_some', Option.some.injEq] at hx
      subst hx
      obtain ⟨n, rfl⟩ : ∃ n, fuel = n + 1 := ⟨fuel - 1, by simp at hf; omega⟩
      rw [decodeUtf8Aux_unit c hc, decodeUtf8Aux_nil]
      rfl
  | case3 c d rest h ih =>
    intro hw x hx fuel hf
    rw [toUtf8Bytes_pair c d rest h.1 h.2] at hx
    obtain ⟨bs, hbs, rfl⟩ := Option.map_eq_some'.mp hx
    obtain ⟨n, rfl⟩ : ∃ n, fuel = n + 1 := ⟨fuel - 1, by simp at hf; omega⟩
    have hw2 : WellFormed rest := fun u hu =>
      hw u (List.mem_cons_of_mem _ (List.mem_cons_of_mem _ hu))
    rw [decodeUtf8Aux_pair c d h.1 h.2, ih hw2 bs hbs n (by simp at hf; omega)]
    rfl
  | case4 c d rest h ih =>
    intro hw x hx fuel hf
    have hc : c < 65536 := hw c (List.mem_cons_self _ _)
    cases hh : isHighSurrogate c with
    | true =>
      have hd : isLowSurrogate d = false := by
        cases hd : isLowSurrogate d with
        | true => exact absurd ⟨hh, hd⟩ h
        | false => rfl
      rw [toUtf8Bytes_lone_cons c d rest hh hd] at hx; cases hx
    | false =>
      rw [toUtf8Bytes_unit c _ hh] at hx
      obtain ⟨bs, hbs, rfl⟩ := Option.map_eq_some'.mp hx
      obtain ⟨n, rfl⟩ : ∃ n, fuel = n + 1 := ⟨fuel - 1, by simp at hf; omega⟩
      have hw2 : WellFormed (d :: rest) := fun u hu => hw u (List.mem_cons_of_mem _ hu)
      rw [decodeUtf8Aux_unit c hc, ih hw2 bs hbs n (by simp at hf ⊢; omega)]
      rfl

/-- The encoder `toUtf8Bytes` is injective on strings of 16-bit code units. -/
theorem toUtf8Bytes_injective (a b : JSString) (ha : WellFormed a) (hb : WellFormed b)
    (x : List Nat) (h1 : toUtf8Bytes a = some x) (h2 : toUtf8Bytes b = some x) : a = b := by
  have e1 := decodeUtf8Aux_toUtf8Bytes a ha x h1 (a.length + b.length) (by omega)
  have e2 := decodeUtf8Aux_toUtf8Bytes b hb x h2 (a.length + b.length) (by omega)
  rw [e1] at e2
  exact Option.some.inj e2

/-! ## Well-formedness, hexadecimal text and letter case -/

theorem wellFormed_append (a b : JSString) (ha : WellFormed a) (hb : WellFormed b) :
    WellFormed (a ++ b) := by
  intro c hc
  rcases List.mem_append.mp hc with h | h
  · exact ha c h
  · exact hb c h

theorem wellFormed_cons (c : Nat) (a : JSString) (hc : c < 65536) (ha : WellFormed a) :
    WellFormed (c :: a) := by
  intro u hu
  rcases List.mem_cons.mp hu with h | h
  · omega
  · exact ha u h

theorem wellFormed_quoteUnit (c : Nat) (hc : c < 65536) : WellFormed (quoteUnit c) := by
  intro u hu
  rcases quoteUnit_cases c with ⟨x, hq, _, _, hx⟩ | ⟨hq, _⟩ | ⟨hq, _⟩
  · rw [hq] at hu
    simp only [List.mem_cons, List.mem_singleton, List.not_mem_nil, or_false] at hu
    rcases hu with rfl | rfl <;> omega
  · rw [hq] at hu
    have := unicodeEscape_lt c u hu
    omega
  · rw [hq] at hu
    simp only [List.mem_singleton] at hu
    omega

theorem wellFormed_quoteBody (s : JSString) : WellFormed s → WellFormed (quoteBody s) := by
  induction s using quoteBody.induct with
  | case1 => intro _ c hc; simp [quoteBody] at hc
  | case2 c =>
    intro hw
    rw [quoteBody_single]
    exact wellFormed_quoteUnit c (hw c (List.mem_singleton_self c))
  | case3 c d rest h ih =>
    intro hw
    rw [quoteBody_pair c d rest h.1 h.2]
    exact wellFormed_cons c _ (hw c (List.mem_cons_self _ _))
      (wellFormed_cons d _ (hw d (List.mem_cons_of_mem _ (List.mem_cons_self _ _)))
        (ih fun u hu => hw u (List.mem_cons_of_mem _ (List.mem_cons_of_mem _ hu))))
  | case4 c d rest h ih =>
    intro hw
    rw [quoteBody_unit c d rest h]
    exact wellFormed_append _ _ (wellFormed_quoteUnit c (hw c (List.mem_cons_self _ _)))
      (ih fun u hu => hw u (List.mem_cons_of_mem _ hu))

theorem wellFormed_quoteJSONString (s : JSString) (hw : WellFormed s) :
    WellFormed (quoteJSONString s) := by
  unfold quoteJSONString
  exact wellFormed_cons _ _ (by decide)
    (wellFormed_append _ _ (wellFormed_quoteBody s hw) (by decide))

theorem wellFormed_serializeProperty (key : String) (v : JSString)
    (hk : WellFormed (js key)) (hv : WellFormed v) : WellFormed (serializeProperty key v) := by
  unfold serializeProperty
  exact wellFormed_append _ _ (wellFormed_quoteJSONString _ hk)
    (wellFormed_cons _ _ (by decide) (wellFormed_quoteJSONString _ hv))

theorem wellFormed_member (key : String) (v rest : JSString) (hk : WellFormed (js key))
    (hv : WellFormed v) (hr : WellFormed rest) :
    WellFormed (serializeProperty key v ++ rest) :=
  wellFormed_append _ _ (wellFormed_serializeProperty key v hk hv) hr

theorem wellFormed_stringify (m : Metadata) (hw : m.WellFormed) : WellFormed (stringify m) := by
  obtain ⟨h1, h2, h3, h4, h5⟩ := hw
  unfold stringify
  apply wellFormed_cons _ _ (by decide)
  apply wellFormed_member _ _ _ (by decide) h1
  apply wellFormed_cons _ _ (by decide)
  apply wellFormed_member _ _ _ (by decide) h2
  apply wellFormed_cons _ _ (by decide)
  apply wellFormed_member _ _ _ (by decide) h3
  apply wellFormed_cons _ _ (by decide)
  apply wellFormed_member _ _ _ (by decide) h4
  apply wellFormed_cons _ _ (by decide)
  apply wellFormed_member _ _ _ (by decide) h5
  decide

theorem hexDigit_inj (x y : Nat) (hx : x < 16) (hy : y < 16) (h : hexDigit x = hexDigit y) :
    x = y := by
  unfold hexDigit at h
  split_ifs at h <;> omega

/-- The hex rendering `hexlify` is injective on byte strings. -/
theorem hexlify_injective (a : List Nat) : ∀ b : List Nat, (∀ v ∈ a, v < 256) →
    (∀ v ∈ b, v < 256) → hexlify a = hexlify b → a = b := by
  induction a with
  | nil =>
    intro b _ _ h
    cases b with
    | nil => rfl
    | cons y b => simp [hexlify] at h
  | cons x a ih =>
    intro b ha hb h
    cases b with
    | nil => simp [hexlify] at h
    | cons y b =>
      simp only [hexlify, List.flatMap_cons, List.cons_append, List.nil_append,
        List.cons.injEq, true_and] at h
      obtain ⟨h1, h2, h3⟩ := h
      have hx := ha x (List.mem_cons_self _ _)
      have hy := hb y (List.mem_cons_self _ _)
      have e1 := hexDigit_inj _ _ (Nat.mod_lt _ (by decide)) (Nat.mod_lt _ (by decide)) h1
      have e2 := hexDigit_inj _ _ (Nat.mod_lt _ (by decide)) (Nat.mod_lt _ (by decide)) h2
      have e : x = y := by omega
      subst e
      congr 1
      exact ih b (fun v hv => ha v (List.mem_cons_of_mem _ hv))
        (fun v hv => hb v (List.mem_cons_of_mem _ hv)) (by simp [hexlify, h3])

theorem leBytes_lt (n w : Nat) : ∀ v ∈ leBytes n w, v < 256 := by
  induction n generalizing w with
  | zero => intro v hv; simp [leBytes] at hv
  | succ n ih =>
    intro v hv
    simp only [leBytes, List.mem_cons] at hv
    rcases hv with rfl | hv
    · exact Nat.mod_lt _ (by decide)
    · exact ih _ v hv

theorem keccak256Bytes_lt (bs : List Nat) : ∀ v ∈ keccak256Bytes bs, v < 256 := by
  intro v hv
  simp only [keccak256Bytes, List.mem_flatMap] at hv
  obtain ⟨w, _, hw⟩ := hv
  exact leBytes_lt 8 w v hw

/-- Equal digests as text are equal digests as bytes. -/
theorem keccak256_inj (a b : List Nat) (h : keccak256 a = keccak256 b) :
    keccak256Bytes a = keccak256Bytes b :=
  hexlify_injective _ _ (keccak256Bytes_lt a) (keccak256Bytes_lt b) h

theorem toLowerCase_hexDigit (n : Nat) (h : n < 16) :
    ¬ (0x41 ≤ hexDigit n ∧ hexDigit n ≤ 0x5A) := by
  unfold hexDigit; split_ifs <;> omega

/-- The text `hexlify` produces is already lowercase. -/
theorem toLowerCase_hexlify (bs : List Nat) : toLowerCase (hexlify bs) = hexlify bs := by
  unfold hexlify toLowerCase
  simp only [List.map_cons]
  congr 2
  induction bs with
  | nil => rfl
  | cons v bs ih =>
    simp only [List.flatMap_cons, List.map_append, List.map_cons, List.map_nil, ih,
      toLowerCase_hexDigit _ (Nat.mod_lt _ (by decide : 0 < 16)), if_false]

theorem toLowerCase_keccak256 (bs : List Nat) : toLowerCase (keccak256 bs) = keccak256 bs :=
  toLowerCase_hexlify _

theorem toLowerCase_toUpperCase (d : JSString) : toLowerCase (toUpperCase d) = toLowerCase d := by
  unfold toLowerCase toUpperCase
  rw [List.map_map]
  apply List.map_congr_left
  intro c _
  simp only [Function.comp]
  split_ifs <;> omega

theorem toLowerCase_toLowerCase (d : JSString) : toLowerCase (toLowerCase d) = toLowerCase d := by
  unfold toLowerCase
  rw [List.map_map]
  apply List.map_congr_left
  intro c _
  simp only [Function.comp]
  split_ifs <;> omega

/-! ## Reading a serialized record back as the spec's parser does -/

theorem skipSpace_cons (u : Nat) (rest : JSString) (h : isJsonSpace u = false) :
    skipSpace (u :: rest) = u :: rest := by
  simp [skipSpace, h]

theorem parseString_quoteJSONString (v rest : JSString) :
    parseString (quoteJSONString v ++ rest) = some (v, rest) := by
  unfold parseString quoteJSONString
  rw [List.cons_append, skipSpace_cons _ _ (by decide)]
  simp only [if_true, List.append_assoc, List.singleton_append]
  exact unquoteBody_quoteBody v rest

theorem expectUnit_cons (u : Nat) (rest : JSString) (h : isJsonSpace u = false) :
    expectUnit u (u :: rest) = some rest := by
  simp [expectUnit, skipSpace_cons u rest h]

theorem expectUnit_ne (u v : Nat) (rest : JSString) (h : isJsonSpace v = false) (hne : v ≠ u) :
    expectUnit u (v :: rest) = none := by
  simp [expectUnit, skipSpace_cons v rest h, hne]

theorem parseMembers_more (fuel : Nat) (key : String) (v rest : JSString) :
    parseMembers (fuel + 1) (serializeProperty key v ++ 0x2C :: rest) =
      match parseMembers fuel rest with
      | some (ms, r) => some ((js key, v) :: ms, r)
      | none => none := by
  rw [parseMembers]
  unfold serializeProperty
  rw [List.append_assoc, parseString_quoteJSONString]
  simp only [List.cons_append]
  rw [expectUnit_cons _ _ (by decide)]
  simp only [parseString_quoteJSONString]
  rw [expectUnit_cons _ _ (by decide)]

theorem parseMembers_last (fuel : Nat) (key : String) (v rest : JSString) :
    parseMembers (fuel + 1) (serializeProperty key v ++ 0x7D :: rest) =
      some ([(js key, v)], rest) := by
  rw [parseMembers]
  unfold serializeProperty
  rw [List.append_assoc, parseString_quoteJSONString]
  simp only [List.cons_append]
  rw [expectUnit_cons _ _ (by decide)]
  simp only [parseString_quoteJSONString]
  rw [expectUnit_ne _ _ _ (by decide) (by decide), expectUnit_cons _ _ (by decide)]

theorem stringify_length (m : Metadata) : 5 ≤ (stringify m).length := by
  simp only [stringify, serializeProperty, quoteJSONString, List.length_cons,
    List.length_append, List.length_nil]
  omega

/-- The spec's parser reads the text `JSON.stringify` wrote for a record back
as that record. -/
theorem parseMetadata_stringify (m : Metadata) : parseMetadata (stringify m) = some m := by
  obtain ⟨n, hn⟩ : ∃ n, (stringify m).length = n + 5 :=
    ⟨(stringify m).length - 5, by have := stringify_length m; omega⟩
  unfold parseMetadata
  rw [hn]
  unfold stringify
  rw [expectUnit_cons _ _ (by decide)]
  simp only [parseMembers_more, parseMembers_last]
  have k1 : js "course" = [99, 111, 117, 114, 115, 101] := by decide
  have k2 : js "moduleId" = [109, 111, 100, 117, 108, 101, 73, 100] := by decide
  have k3 : js "learner" = [108, 101, 97, 114, 110, 101, 114] := by decide
  have k4 : js "issuer" = [105, 115, 115, 117, 101, 114] := by decide
  have k5 : js "issuedAtISO" = [105, 115, 115, 117, 101, 100, 65, 116, 73, 83, 79] := by decide
  simp [skipSpace, lookupMember, k1, k2, k3, k4, k5, List.lookup]

/-! ## Test vectors and the example scenario -/

/-- Keccak-256 of the empty input. -/
theorem keccak256_empty :
    keccak256 [] = js "0xc5d2460186f7233c927e7db2dcc703c0e500b653ca82273b7bfad8045d85a470" := by
  decide

/-- Keccak-256 of the text `abc`. -/
theorem keccak256_abc :
    (toUtf8Bytes (js "abc")).map keccak256 =
      some (js "0x4e03657aea45a94fc7d47ba826c8d667c0d1e6e33a64a036ec44f58fa12d6c45") := by
  decide

theorem credHashOf_sampleMetadata : credHashOf sampleMetadata = some sampleDigest := by
  decide

theorem credHashOf_sampleMetadataM2 : credHashOf sampleMetadataM2 = some sampleDigestM2 := by
  decide

theorem checkHash_spacedPayload :
    checkHash (checkingState sampleDigest spacedPayload) = [.setHashMatch (some false)] := by
  decide

theorem checkHash_reorderedPayload :
    checkHash (checkingState sampleDigest reorderedPayload) = [.setHashMatch (some false)] := by
  decide

theorem parseMetadata_spacedPayload : parseMetadata spacedPayload = some sampleMetadata := by
  decide

theorem parseMetadata_reorderedPayload :
    parseMetadata reorderedPayload = some sampleMetadata := by
  decide

/-- What `checkHash` does with a text that has an encoding. -/
theorem checkHash_of_bytes (s : AppState) (c : Cred) (b : List Nat) (hc : s.cred = some c)
    (hb : toUtf8Bytes s.jsonToCheck = some b) :
    checkHash s =
      [.setHashMatch (some (decide (toLowerCase (keccak256 b) = toLowerCase c.credHash)))] := by
  simp [checkHash, hc, hb]

/-- What `checkHash` does with the text serialized for a record. -/
theorem checkHash_stringify (s : AppState) (c : Cred) (m : Metadata) (h : JSString)
    (hc : s.cred = some c) (hj : s.jsonToCheck = stringify m) (hd : credHashOf m = some h) :
    checkHash s = [.setHashMatch (some (decide (toLowerCase h = toLowerCase c.credHash)))] := by
  obtain ⟨b, hb, hd2⟩ := credHashOf_eq m
  rw [hd2] at hd
  cases hd
  exact checkHash_of_bytes s c b hc (hj ▸ hb)

/-- C2, refuted as stated. The texts `spacedPayload` (a space after each colon
and comma) and `reorderedPayload` (keys in another order) parse to the sample
metadata, whose digest is the stored digest, so the claim gives `true` for
them; `checkHash` hashes the text as pasted and gives `false` for both, while
the exact serialization, which parses to the same metadata, gives `true`. -/
theorem checkHash_does_not_parse_counterexample :
    parseMetadata spacedPayload = some sampleMetadata ∧
    parseMetadata reorderedPayload = some sampleMetadata ∧
    parseMetadata (stringify sampleMetadata) = some sampleMetadata ∧
    credHashOf sampleMetadata = some sampleDigest ∧
    specCheckIntegrity spacedPayload sampleDigest = some true ∧
    specCheckIntegrity reorderedPayload sampleDigest = some true ∧
    checkHash (checkingState sampleDigest spacedPayload) = [.setHashMatch (some false)] ∧
    checkHash (checkingState sampleDigest reorderedPayload) = [.setHashMatch (some false)] ∧
    checkHash (checkingState sampleDigest (stringify sampleMetadata)) =
      [.setHashMatch (some true)] := by
  refine ⟨parseMetadata_spacedPayload, parseMetadata_reorderedPayload,
    parseMetadata_stringify _, credHashOf_sampleMetadata, ?_, ?_, checkHash_spacedPayload,
    checkHash_reorderedPayload, ?_⟩
  · simp [specCheckIntegrity, parseMetadata_spacedPayload, credHashOf_sampleMetadata]
  · simp [specCheckIntegrity, parseMetadata_reorderedPayload, credHashOf_sampleMetadata]
  · rw [checkHash_stringify _ (sampleCred sampleDigest) sampleMetadata sampleDigest rfl rfl
      credHashOf_sampleMetadata]
    simp [sampleCred]

/-- C2, amended. `checkHash` computes the digest over the pasted text itself,
without parsing it: with a credential loaded, for every text that has a UTF-8
encoding the result is the case-insensitive comparison of the Keccak-256 digest
of these bytes with the stored digest; for the text `JSON.stringify` wrote for
a record `m`, which parses to `m`, this is the comparison of the digest mint
computes for `m` with the stored digest, as the spec's reading gives; and two
states with the same pasted text and credential give the same result. -/
theorem checkHash_hashes_pasted_text (s : AppState) (c : Cred) (hc : s.cred = some c) :
    (∀ b, toUtf8Bytes s.jsonToCheck = some b →
      checkHash s =
        [.setHashMatch (some (decide (toLowerCase (keccak256 b) = toLowerCase c.credHash)))]) ∧
    (∀ m, s.jsonToCheck = stringify m →
      parseMetadata s.jsonToCheck = some m ∧
      ∃ h, credHashOf m = some h ∧
        checkHash s =
          [.setHashMatch (some (decide (toLowerCase h = toLowerCase c.credHash)))] ∧
        specCheckIntegrity s.jsonToCheck c.credHash =
          some (decide (toLowerCase h = toLowerCase c.credHash))) ∧
    (∀ s2 : AppState, s2.cred = some c → s2.jsonToCheck = s.jsonToCheck →
      checkHash s2 = checkHash s) := by
  refine ⟨fun b hb => checkHash_of_bytes s c b hc hb, ?_, ?_⟩
  · intro m hj
    obtain ⟨b, _, hd⟩ := credHashOf_eq m
    refine ⟨hj ▸ parseMetadata_stringify m, keccak256 b, hd,
      checkHash_stringify s c m _ hc hj hd, ?_⟩
    rw [hj]
    simp [specCheckIntegrity, parseMetadata_stringify, hd]
  · intro s2 hc2 hj2
    simp only [checkHash, hc, hc2, hj2]

/-- C5. The test `isInt` holds exactly for the non-empty strings of the digits
0-9.  For any other token id `verifyToken` issues no ledger call (none of
`ownerOf`, `tokenURI`, `credentialOf`) and leaves the loaded credential and the
hash-match result as they were, and with a provider connected its only effect
is the toast 'tokenId must be integer'; with a provider connected a token id
that passes is sent to the three reads, and the reads are issued for no other
token id. -/
theorem verifyToken_validates_tokenId (env : Env) (s : AppState) :
    (isInt s.tokenId = true ↔ s.tokenId ≠ [] ∧ ∀ c ∈ s.tokenId, 0x30 ≤ c ∧ c ≤ 0x39) ∧
    (isInt s.tokenId = false →
      ledgerCalls (verifyToken env s) = [] ∧
      (s.run (verifyToken env s)).cred = s.cred ∧
      (s.run (verifyToken env s)).hashMatch = s.hashMatch ∧
      (s.provider = true →
        verifyToken env s = [.setToast (errToast (js "tokenId must be integer"))])) ∧
    (s.provider = true → isInt s.tokenId = true →
      ledgerCalls (verifyToken env s) =
        [.ownerOf s.tokenId, .tokenURI s.tokenId, .credentialOf s.tokenId]) ∧
    (ledgerCalls (verifyToken env s) ≠ [] → isInt s.tokenId = true) := by
  have hrej : isInt s.tokenId = false →
      ledgerCalls (verifyToken env s) = [] ∧
      (s.run (verifyToken env s)).cred = s.cred ∧
      (s.run (verifyToken env s)).hashMatch = s.hashMatch ∧
      (s.provider = true →
        verifyToken env s = [.setToast (errToast (js "tokenId must be integer"))]) := by
    intro hid
    cases hconn : s.provider <;>
      simp [verifyToken, hconn, hid, ledgerCalls, AppState.run, AppState.apply]
  refine ⟨matchDigitsToEnd_iff s.tokenId, hrej, ?_, ?_⟩
  · intro hconn hid
    simp only [verifyToken, hconn, hid]
    cases promiseAll3 env.sched (env.ownerOf s.tokenId) (env.tokenURI s.tokenId)
      (env.credentialOf s.tokenId) <;> simp [ledgerCalls]
  · intro hcalls
    cases hid : isInt s.tokenId with
    | true => rfl
    | false => exact absurd (hrej hid).1 hcalls

/-- C6. For a connected client and a valid token id: when the three reads
succeed the stored credential has the input token id, the owner from `ownerOf`,
the uri from `tokenURI` and issuer, digest, issue time (through `Number`, exact
below 2^53) and revoked flag from the `credentialOf` tuple; when any read fails
no credential is stored (`cred` and `hashMatch` are null, whatever was loaded
before) and an error toast carries the message of a read that failed. -/
theorem verifyToken_all_or_nothing (env : Env) (s : AppState)
    (hconn : s.provider = true) (hid : isInt s.tokenId = true) :
    (∀ o u t, env.ownerOf s.tokenId = .ok o → env.tokenURI s.tokenId = .ok u →
        env.credentialOf s.tokenId = .ok t →
      (s.run (verifyToken env s)).cred = some
        { tokenId := s.tokenId, ownerOf := o, uriOf := u, issuer := t.issuer,
          credHash := t.credHash, issuedAt := numberOfBigInt t.issuedAt,
          revoked := t.revoked } ∧
      (t.issuedAt < 2 ^ 53 → numberOfBigInt t.issuedAt = t.issuedAt) ∧
      (s.run (verifyToken env s)).hashMatch = none ∧
      (s.run (verifyToken env s)).toast = okToast (js "Loaded")) ∧
    (((∃ e, env.ownerOf s.tokenId = .error e) ∨ (∃ e, env.tokenURI s.tokenId = .error e) ∨
        (∃ e, env.credentialOf s.tokenId = .error e)) →
      (s.run (verifyToken env s)).cred = none ∧
      (s.run (verifyToken env s)).hashMatch = none ∧
      (∀ c, Action.setCred (some c) ∉ verifyToken env s) ∧
      ∃ e, (env.ownerOf s.tokenId = .error e ∨ env.tokenURI s.tokenId = .error e ∨
          env.credentialOf s.tokenId = .error e) ∧
        (s.run (verifyToken env s)).toast =
          errToast (errorMessage e (js "Verify failed (not minted?)"))) := by
  constructor
  · intro o u t ho hu ht
    refine ⟨?_, ?_, ?_, ?_⟩
    · simp [verifyToken, hconn, hid, ho, hu, ht, promiseAll3, AppState.run, AppState.apply]
    · intro hlt
      unfold numberOfBigInt
      rw [if_pos hlt]
    · simp [verifyToken, hconn, hid, ho, hu, ht, promiseAll3, AppState.run, AppState.apply]
    · simp [verifyToken, hconn, hid, ho, hu, ht, promiseAll3, AppState.run, AppState.apply]
  · intro hfail
    obtain ⟨e, he, hwho⟩ := promiseAll3_error env.sched _ _ _ hfail
    refine ⟨?_, ?_, ?_, e, hwho, ?_⟩ <;>
      simp [verifyToken, hconn, hid, he, AppState.run, AppState.apply]

/-- C7. The verdict of a loaded credential is REVOKED when its revoked flag is
true and VALID otherwise; two credentials with the same flag get the same
verdict whatever their other fields, the two statuses are distinct and there is
no third one; the verify tab shows exactly this verdict for the loaded
credential. -/
theorem verdict_revoked_or_valid (c : Cred) :
    (c.revoked = true → verdict c = js "REVOKED") ∧
    (c.revoked = false → verdict c = js "VALID") ∧
    (∀ c2 : Cred, c2.revoked = c.revoked → verdict c2 = verdict c) ∧
    (verdict c = js "REVOKED" ∨ verdict c = js "VALID") ∧
    js "REVOKED" ≠ js "VALID" ∧
    (∀ s : AppState, s.tab = js "verify" → s.cred = some c →
      renderVerdict s = some (verdict c)) := by
  refine ⟨?_, ?_, ?_, ?_, by decide, ?_⟩
  · intro h; simp [verdict, h]
  · intro h; simp [verdict, h]
  · intro c2 h; simp [verdict, h]
  · cases h : c.revoked <;> simp [verdict, h]
  · intro s htab hc; simp [renderVerdict, htab, hc]

/-! ## The claims about hashing -/

/-- C1. With a credential loaded whose stored digest is `d` (hexadecimal text),
`checkHash` calls `setHashMatch(true)` exactly when the pasted text has a UTF-8
encoding whose Keccak-256 hex digest equals `d` once both are lower-cased; when
the text encodes, `hashMatch` becomes the result of that comparison; upper- or
lower-casing `d` changes nothing; with no credential loaded `checkHash` does
nothing. -/
theorem checkHash_compares_digest (s : AppState) :
    (∀ c : Cred, s.cred = some c → IsAscii c.credHash →
      ((Action.setHashMatch (some true) ∈ checkHash s) ↔
        ∃ b, toUtf8Bytes s.jsonToCheck = some b ∧
          toLowerCase (keccak256 b) = toLowerCase c.credHash) ∧
      (∀ b, toUtf8Bytes s.jsonToCheck = some b →
        checkHash s =
          [.setHashMatch (some (decide (toLowerCase (keccak256 b) = toLowerCase c.credHash)))] ∧
        (s.run (checkHash s)).hashMatch =
          some (decide (toLowerCase (keccak256 b) = toLowerCase c.credHash))) ∧
      checkHash { s with cred := some { c with credHash := toUpperCase c.credHash } } =
        checkHash s ∧
      checkHash { s with cred := some { c with credHash := toLowerCase c.credHash } } =
        checkHash s) ∧
    (s.cred = none → checkHash s = [] ∧ s.run (checkHash s) = s) := by
  constructor
  · intro c hc _
    refine ⟨?_, ?_, ?_, ?_⟩
    · cases hb : toUtf8Bytes s.jsonToCheck with
      | none => simp [checkHash, hc, hb]
      | some b => simp [checkHash, hc, hb]
    · intro b hb
      simp [checkHash, hc, hb, AppState.run, AppState.apply]
    · simp only [checkHash, hc, toLowerCase_toUpperCase]
    · simp only [checkHash, hc, toLowerCase_toLowerCase]
  · intro hc
    simp [checkHash, hc, AppState.run]

/-- C3. For every metadata record the digest of `mintCredential` exists and is
a function of the record alone: every mint from a connected issuer with a valid
learner address whose form holds this record submits this digest; and pasting
the text `JSON.stringify` produced for the record into `checkHash`, against a
credential whose stored digest is this digest in any letter case, sets
`hashMatch` to true. -/
theorem mint_check_round_trip (m : Metadata) :
    ∃ d, credHashOf m = some d ∧
      (∀ (env : Env) (s : AppState), s.signer = true → env.isAddress s.learner = true →
        metadataOf env s = m →
        ∃ rest, mintCredential env s = some (
          .setToast (infoToast (js "Minting credential NFT...")) :: .setMintedId [] ::
          .call (.mintCredential s.learner d s.uri) :: rest)) ∧
      toLowerCase (toUpperCase d) = toLowerCase d ∧
      toLowerCase (toLowerCase d) = toLowerCase d ∧
      (∀ (s : AppState) (c : Cred), s.cred = some c → s.jsonToCheck = stringify m →
        toLowerCase c.credHash = toLowerCase d →
        checkHash s = [.setHashMatch (some true)] ∧
        (s.run (checkHash s)).hashMatch = some true) := by
  obtain ⟨b, hb, hd⟩ := credHashOf_eq m
  refine ⟨keccak256 b, hd, ?_, toLowerCase_toUpperCase _, toLowerCase_toLowerCase _, ?_⟩
  · intro env s hs ha hm
    simp only [mintCredential, hs, ha, hm, hd]
    exact ⟨_, rfl⟩
  · intro s c hc hj hl
    simp [checkHash, hc, hj, hb, hl, AppState.run, AppState.apply]

/-- C4. Two metadata records (of 16-bit code units) that differ in a field
serialize to different texts and to different UTF-8 bytes; and when the hash
primitive does not collide on these two byte strings their digests differ, so
checking the JSON of one record against the stored digest of the other (in any
letter case) sets `hashMatch` to false. -/
theorem distinct_metadata_distinct_digest (m1 m2 : Metadata)
    (hw1 : m1.WellFormed) (hw2 : m2.WellFormed) (hne : m1 ≠ m2) :
    stringify m1 ≠ stringify m2 ∧
    ∃ b1 b2, toUtf8Bytes (stringify m1) = some b1 ∧ toUtf8Bytes (stringify m2) = some b2 ∧
      credHashOf m1 = some (keccak256 b1) ∧ credHashOf m2 = some (keccak256 b2) ∧
      b1 ≠ b2 ∧
      (keccak256Bytes b1 ≠ keccak256Bytes b2 →
        credHashOf m1 ≠ credHashOf m2 ∧
        ∀ (s : AppState) (c : Cred), s.cred = some c → s.jsonToCheck = stringify m2 →
          toLowerCase c.credHash = toLowerCase (keccak256 b1) →
          checkHash s = [.setHashMatch (some false)] ∧
          (s.run (checkHash s)).hashMatch = some false) := by
  have hs : stringify m1 ≠ stringify m2 := fun h => hne (stringify_injective m1 m2 h)
  obtain ⟨b1, hb1, hd1⟩ := credHashOf_eq m1
  obtain ⟨b2, hb2, hd2⟩ := credHashOf_eq m2
  refine ⟨hs, b1, b2, hb1, hb2, hd1, hd2, ?_, ?_⟩
  · intro hb
    subst hb
    exact hs (toUtf8Bytes_injective _ _ (wellFormed_stringify m1 hw1)
      (wellFormed_stringify m2 hw2) b1 hb1 hb2)
  · intro hk
    have hk2 : keccak256 b2 ≠ keccak256 b1 := fun h => hk (keccak256_inj _ _ h).symm
    refine ⟨?_, ?_⟩
    · rw [hd1, hd2]
      intro h
      exact hk2 (Option.some.inj h).symm
    · intro s c hc hj hl
      have hcmp : ¬ toLowerCase (keccak256 b2) = toLowerCase c.credHash := by
        rw [hl, toLowerCase_keccak256, toLowerCase_keccak256]
        exact hk2
      simp [checkHash, hc, hj, hb2, hcmp, AppState.run, AppState.apply]

/-! ## The claims about minting, addresses and the event scan -/

theorem findMinted_none (parseLog : Log → Option LogDescription) (logs : List Log)
    (h : ∀ x ∈ logs, ∀ d, parseLog x = some d → d.name ≠ js "CredentialMinted") :
    findMinted parseLog logs = none := by
  unfold findMinted
  rw [List.find?_eq_none]
  intro p hp
  obtain ⟨x, hx, rfl⟩ := List.mem_map.mp hp
  cases hd : parseLog x with
  | none => simp
  | some d => simpa using h x hx d hd

theorem findMinted_first (parseLog : Log → Option LogDescription) (pre post : List Log)
    (l : Log) (d : LogDescription)
    (hpre : ∀ x ∈ pre, ∀ d, parseLog x = some d → d.name ≠ js "CredentialMinted")
    (hl : parseLog l = some d) (hn : d.name = js "CredentialMinted") :
    findMinted parseLog (pre ++ l :: post) = some (some d) := by
  induction pre with
  | nil => simp [findMinted, hl, hn]
  | cons x pre ih =>
    have hx : (match parseLog x with
        | some d => decide (d.name = js "CredentialMinted")
        | none => false) = false := by
      cases hd : parseLog x with
      | none => rfl
      | some d2 => simpa using hpre x (List.mem_cons_self _ _) d2 hd
    have ih2 := ih fun y hy => hpre y (List.mem_cons_of_mem _ hy)
    unfold findMinted at ih2 ⊢
    rw [List.cons_append, List.map_cons, List.find?_cons, hx]
    exact ih2

/-- C8. After a confirmed mint the shown token id comes from the receipt: it is
the decimal text of the `tokenId` of the first log that parses as a
`CredentialMinted` event, logs before it that do not parse or carry another
name being skipped; with no such log it is empty, as reset before submission;
the transaction hash is the submitted one and `nextTokenId` is never read. -/
theorem mintedId_from_event (env : Env) (s : AppState) (tx : TxResponse) (logs : List Log)
    (hconn : s.signer = true) (haddr : env.isAddress s.learner = true)
    (hsub : ∀ h, credHashOf (metadataOf env s) = some h →
      env.mintCredential s.learner h s.uri = .ok tx)
    (hwait : tx.wait = .ok logs) :
    ∃ tr, mintCredential env s = some tr ∧
      (s.run tr).txHash = tx.hash ∧
      LedgerCall.nextTokenId ∉ ledgerCalls tr ∧
      (∀ pre l post t i le h u, logs = pre ++ l :: post →
        (∀ x ∈ pre, ∀ d, env.parseLog x = some d → d.name ≠ js "CredentialMinted") →
        env.parseLog l = some (.CredentialMinted t i le h u) →
        (s.run tr).mintedId = decimal t) ∧
      ((∀ x ∈ logs, ∀ d, env.parseLog x = some d → d.name ≠ js "CredentialMinted") →
        (s.run tr).mintedId = []) := by
  obtain ⟨b, _, hd⟩ := credHashOf_eq (metadataOf env s)
  have hsub2 := hsub _ hd
  refine ⟨_, by simp only [mintCredential, hconn, haddr, hd, hsub2, hwait]; rfl, ?_, ?_, ?_, ?_⟩
  · unfold afterReceipt
    cases findMinted env.parseLog logs with
    | none => simp [AppState.run, AppState.apply]
    | some p =>
      cases p with
      | none => simp [AppState.run, AppState.apply]
      | some d => cases d <;> simp [AppState.run, AppState.apply, LogDescription.tokenId]
  · unfold afterReceipt
    cases findMinted env.parseLog logs with
    | none => simp [ledgerCalls]
    | some p =>
      cases p with
      | none => simp [ledgerCalls]
      | some d => cases d <;> simp [ledgerCalls, LogDescription.tokenId]
  · intro pre l post t i le h u hlogs hpre hl
    rw [hlogs]
    simp [afterReceipt, findMinted_first env.parseLog pre post l _ hpre hl rfl,
      AppState.run, AppState.apply, LogDescription.tokenId]
  · intro hnone
    simp [afterReceipt, findMinted_none env.parseLog logs hnone, AppState.run, AppState.apply]

/-- C9. A learner input that `ethers.isAddress` rejects makes `mintCredential`
submit no transaction and issue no other ledger call, and token id and
transaction hash stay as they were; with a signer connected its only effect is
the toast 'Bad learner address'.  Likewise a rejected issuer input makes
`adminSetIssuer` issue no `setIssuer` transaction nor any other ledger call,
and with a signer connected only report 'Bad issuer address'. -/
theorem bad_address_rejected (env : Env) (s : AppState) :
    (env.isAddress s.learner = false →
      ∃ tr, mintCredential env s = some tr ∧
        ledgerCalls tr = [] ∧ (s.run tr).mintedId = s.mintedId ∧
        (s.run tr).txHash = s.txHash ∧
        (s.signer = true → tr = [.setToast (errToast (js "Bad learner address"))])) ∧
    (env.isAddress s.issuerAddr = false →
      ledgerCalls (adminSetIssuer env s) = [] ∧
      (s.run (adminSetIssuer env s)).txHash = s.txHash ∧
      (s.signer = true →
        adminSetIssuer env s = [.setToast (errToast (js "Bad issuer address"))])) := by
  constructor
  · intro h
    cases hconn : s.signer with
    | false =>
      exact ⟨[.setToast (errToast (js "Connect wallet"))],
        by simp [mintCredential, hconn], rfl, rfl, rfl, by simp⟩
    | true =>
      exact ⟨[.setToast (errToast (js "Bad learner address"))],
        by simp [mintCredential, hconn, h], rfl, rfl, rfl, fun _ => rfl⟩
  · intro h
    cases hconn : s.signer <;>
      simp [adminSetIssuer, hconn, h, ledgerCalls, AppState.run, AppState.apply]

theorem queryMinted_cons (d : LogDescription) (rest : List LogDescription)
    (account : JSString) :
    queryMinted (d :: rest) account =
      if (decide (d.name = js "CredentialMinted") && decide (d.learner = some account)) = true
      then d :: queryMinted rest account else queryMinted rest account := by
  simp only [queryMinted, List.filter_cons]

theorem tokenIdsMintedTo_minted (t : Nat) (i l h u : JSString) (rest : List LogDescription)
    (account : JSString) :
    tokenIdsMintedTo (.CredentialMinted t i l h u :: rest) account =
      if l = account then decimal t :: tokenIdsMintedTo rest account
      else tokenIdsMintedTo rest account := by
  unfold tokenIdsMintedTo
  rw [List.filterMap_cons]
  by_cases hl : l = account <;> simp [hl]

theorem tokenIdsMintedTo_revoked (t : Nat) (i : JSString) (rest : List LogDescription)
    (account : JSString) :
    tokenIdsMintedTo (.CredentialRevoked t i :: rest) account =
      tokenIdsMintedTo rest account := by
  unfold tokenIdsMintedTo
  rw [List.filterMap_cons]

theorem tokenIdsMintedTo_updated (i : JSString) (a : Bool) (rest : List LogDescription)
    (account : JSString) :
    tokenIdsMintedTo (.IssuerUpdated i a :: rest) account =
      tokenIdsMintedTo rest account := by
  unfold tokenIdsMintedTo
  rw [List.filterMap_cons]

theorem queryMinted_tokenIds (history : List LogDescription) (account : JSString) :
    (queryMinted history account).map tokenIdText = tokenIdsMintedTo history account := by
  induction history with
  | nil => rfl
  | cons d rest ih =>
    rw [queryMinted_cons]
    cases d with
    | CredentialMinted t i l h u =>
      have hn : (LogDescription.CredentialMinted t i l h u).name = js "CredentialMinted" := rfl
      rw [tokenIdsMintedTo_minted]
      by_cases hl : l = account
      · subst hl
        rw [if_pos (by simp [hn, LogDescription.learner]), if_pos rfl, List.map_cons, ih]
        rfl
      · simp [hl, LogDescription.learner, ih]
    | CredentialRevoked t i =>
      rw [tokenIdsMintedTo_revoked]
      simp [LogDescription.learner, ih]
    | IssuerUpdated i a =>
      rw [tokenIdsMintedTo_updated]
      simp [LogDescription.learner, ih]

theorem mem_tokenIdsMintedTo (history : List LogDescription) (account id : JSString) :
    id ∈ tokenIdsMintedTo history account ↔
      ∃ t i h u, LogDescription.CredentialMinted t i account h u ∈ history ∧ id = decimal t := by
  unfold tokenIdsMintedTo
  rw [List.mem_filterMap]
  constructor
  · rintro ⟨d, hd, hid⟩
    cases d with
    | CredentialMinted t i l h u =>
      by_cases hl : l = account
      · subst hl
        simp at hid
        exact ⟨t, i, h, u, hd, hid.symm⟩
      · simp [hl] at hid
    | CredentialRevoked t i => simp at hid
    | IssuerUpdated i a => simp at hid
  · rintro ⟨t, i, h, u, hd, rfl⟩
    exact ⟨_, hd, by simp⟩

theorem loadMyTokens_congr (env : Env) (s1 s2 : AppState) (hp : s1.provider = s2.provider)
    (ha : s1.account = s2.account) : loadMyTokens env s1 = loadMyTokens env s2 := by
  unfold loadMyTokens
  rw [hp, ha]

/-- C10. For a connected account and a query that succeeds, `loadMyTokens`
stores exactly the token ids of the `CredentialMinted` events of the ledger
history whose learner is the account, one per matching event and in ledger
order: an id is listed only if an event minted to the account carries it; the
toast reports their count; the only ledger call is the event query; and running
it again on the same history gives the same list. -/
theorem loadMyTokens_lists_own_tokens (env : Env) (s : AppState)
    (hconn : s.provider = true) (hacc : s.account ≠ []) (hq : env.queryError = none) :
    (s.run (loadMyTokens env s)).myCreds = tokenIdsMintedTo env.history s.account ∧
    (∀ id, id ∈ (s.run (loadMyTokens env s)).myCreds ↔
      ∃ t i h u, LogDescription.CredentialMinted t i s.account h u ∈ env.history ∧
        id = decimal t) ∧
    (s.run (loadMyTokens env s)).toast =
      okToast (js "Found " ++ decimal (s.run (loadMyTokens env s)).myCreds.length ++
        js " credential(s)") ∧
    ledgerCalls (loadMyTokens env s) = [.queryMinted s.account] ∧
    ((s.run (loadMyTokens env s)).run (loadMyTokens env (s.run (loadMyTokens env s)))).myCreds =
      (s.run (loadMyTokens env s)).myCreds := by
  have e : loadMyTokens env s =
      [.setToast (infoToast (js "Loading your minted credentials from events...")),
       .call (.queryMinted s.account),
       .setMyCreds (tokenIdsMintedTo env.history s.account),
       .setToast (okToast (js "Found " ++
         decimal (tokenIdsMintedTo env.history s.account).length ++ js " credential(s)"))] := by
    simp [loadMyTokens, hconn, hacc, hq, queryMinted_tokenIds]
  have hrun : s.run (loadMyTokens env s) =
      { s with
        myCreds := tokenIdsMintedTo env.history s.account
        toast := okToast (js "Found " ++
          decimal (tokenIdsMintedTo env.history s.account).length ++ js " credential(s)") } := by
    rw [e]
    simp only [AppState.run, List.foldl_cons, List.foldl_nil, AppState.apply]
  have e2 : loadMyTokens env (s.run (loadMyTokens env s)) = loadMyTokens env s :=
    loadMyTokens_congr env _ _ (by rw [hrun]) (by rw [hrun])
  refine ⟨by rw [hrun], ?_, by rw [hrun], by rw [e]; simp only [ledgerCalls], ?_⟩
  · intro id
    rw [hrun]
    exact mem_tokenIdsMintedTo _ _ _
  · rw [e2, hrun, e]
    simp only [AppState.run, List.foldl_cons, List.foldl_nil, AppState.apply]

/-! ## The theorems at the example scenario -/

/-- C1 at the example: the exact serialization matches the stored digest, also
when the stored digest is upper-cased. -/
theorem checkHash_compares_digest_witness :
    Action.setHashMatch (some true) ∈
      checkHash (checkingState (toUpperCase sampleDigest) (stringify sampleMetadata)) := by
  obtain ⟨b, hb, hd⟩ := credHashOf_eq sampleMetadata
  have hk : keccak256 b = sampleDigest :=
    Option.some.inj (hd.symm.trans credHashOf_sampleMetadata)
  exact ((checkHash_compares_digest
    (checkingState (toUpperCase sampleDigest) (stringify sampleMetadata))).1
      (sampleCred (toUpperCase sampleDigest)) rfl (by decide)).1.mpr
        ⟨b, hb, by rw [hk]; exact (toLowerCase_toUpperCase sampleDigest).symm⟩

/-- C2 amended, at the example: the exact serialization of the sample
metadata parses to it, and the spaced text gives the same result on another
tab of the page. -/
theorem checkHash_hashes_pasted_text_witness :
    parseMetadata (stringify sampleMetadata) = some sampleMetadata ∧
    checkHash { checkingState sampleDigest spacedPayload with tab := js "issue" } =
      checkHash (checkingState sampleDigest spacedPayload) :=
  ⟨((checkHash_hashes_pasted_text (checkingState sampleDigest (stringify sampleMetadata))
      (sampleCred sampleDigest) rfl).2.1 sampleMetadata rfl).1,
   (checkHash_hashes_pasted_text (checkingState sampleDigest spacedPayload)
      (sampleCred sampleDigest) rfl).2.2 _ rfl rfl⟩

/-- C3 at the example: the digest of the sample metadata is the stored one and
its serialization matches it. -/
theorem mint_check_round_trip_witness :
    checkHash (checkingState sampleDigest (stringify sampleMetadata)) =
      [.setHashMatch (some true)] := by
  obtain ⟨d, hd, _, _, _, h⟩ := mint_check_round_trip sampleMetadata
  have hk : d = sampleDigest := Option.some.inj (hd.symm.trans credHashOf_sampleMetadata)
  subst hk
  exact (h (checkingState sampleDigest (stringify sampleMetadata)) (sampleCred sampleDigest)
    rfl rfl rfl).1

/-- C4 at the example of the spec: the JSON with `moduleId` `M2` checked
against the digest for `M1` gives `false`; the two digests are computed and
differ, so the hash does not collide on this pair. -/
theorem distinct_metadata_distinct_digest_witness :
    stringify sampleMetadata ≠ stringify sampleMetadataM2 ∧
    sampleDigest ≠ sampleDigestM2 ∧
    checkHash (checkingState sampleDigest (stringify sampleMetadataM2)) =
      [.setHashMatch (some false)] := by
  obtain ⟨hs, b1, b2, _, _, hd1, hd2, _, h⟩ :=
    distinct_metadata_distinct_digest sampleMetadata sampleMetadataM2
      (by decide) (by decide) (by decide)
  have hk1 : keccak256 b1 = sampleDigest :=
    Option.some.inj (hd1.symm.trans credHashOf_sampleMetadata)
  have hk2 : keccak256 b2 = sampleDigestM2 :=
    Option.some.inj (hd2.symm.trans credHashOf_sampleMetadataM2)
  have hne : sampleDigest ≠ sampleDigestM2 := by decide
  have hbytes : keccak256Bytes b1 ≠ keccak256Bytes b2 := by
    intro e
    apply hne
    rw [← hk1, ← hk2]
    unfold keccak256
    rw [e]
  refine ⟨hs, hne, ?_⟩
  exact ((h hbytes).2 (checkingState sampleDigest (stringify sampleMetadataM2))
    (sampleCred sampleDigest) rfl rfl (by rw [hk1]; rfl)).1

/-- C5 at examples: the inputs the claim lists are rejected, digit strings are
accepted, and a rejected input only produces the validation toast. -/
theorem verifyToken_validates_tokenId_witness :
    verifyToken sampleEnv { connectedState with tokenId := js "1.5" } =
      [.setToast (errToast (js "tokenId must be integer"))] ∧
    [js "", js "-1", js "+1", js "1.5", js " 1", js "1 ", js "1\n", js "0x10", js "abc",
      js "1e3"].map isInt = List.replicate 10 false ∧
    [js "0", js "007", js "42", js "18446744073709551616"].map isInt = List.replicate 4 true :=
  ⟨((verifyToken_validates_tokenId sampleEnv
      { connectedState with tokenId := js "1.5" }).2.1 (by decide)).2.2.2 rfl,
    by decide, by decide⟩

/-- C6 at the example: token 0 resolves to the full record, token 7 to none. -/
theorem verifyToken_all_or_nothing_witness :
    ({ connectedState with tokenId := js "0" }.run
      (verifyToken sampleEnv { connectedState with tokenId := js "0" })).cred =
      some { tokenId := js "0", ownerOf := learnerL, uriOf := js "ipfs://cred0",
             issuer := learnerL, credHash := sampleDigest, issuedAt := 1704067200,
             revoked := false } ∧
    ({ connectedState with tokenId := js "7", cred := some (sampleCred sampleDigest) }.run
      (verifyToken sampleEnv
        { connectedState with tokenId := js "7", cred := some (sampleCred sampleDigest) })).cred =
      none :=
  ⟨((verifyToken_all_or_nothing sampleEnv { connectedState with tokenId := js "0" } rfl
      (by decide)).1 learnerL (js "ipfs://cred0") ⟨learnerL, sampleDigest, 1704067200, false⟩
      rfl rfl rfl).1,
   ((verifyToken_all_or_nothing sampleEnv
      { connectedState with tokenId := js "7", cred := some (sampleCred sampleDigest) } rfl
      (by decide)).2 (Or.inl ⟨notMinted, rfl⟩)).1⟩

/-- C8 at the example: the receipt holds a foreign log and then the
`CredentialMinted` log of token 0, and the shown id is `0`. -/
theorem mintedId_from_event_witness :
    ∃ tr, mintCredential sampleEnv { connectedState with learner := learnerL } = some tr ∧
      ({ connectedState with learner := learnerL }.run tr).mintedId = js "0" := by
  obtain ⟨tr, h1, _, _, h4, _⟩ :=
    mintedId_from_event sampleEnv { connectedState with learner := learnerL } sampleTx
      [foreignLog, mintedLog] rfl (by decide) (fun _ _ => rfl) rfl
  exact ⟨tr, h1, (h4 [foreignLog] mintedLog [] 0 learnerL learnerL sampleDigest [] rfl
    (by decide) (by decide)).trans (by decide)⟩

/-- C9 at an example: the learner input `0x123` is rejected with one toast. -/
theorem bad_address_rejected_witness :
    mintCredential sampleEnv { connectedState with learner := js "0x123" } =
      some [.setToast (errToast (js "Bad learner address"))] ∧
    adminSetIssuer sampleEnv { connectedState with issuerAddr := js "not an address" } =
      [.setToast (errToast (js "Bad issuer address"))] := by
  obtain ⟨tr, h1, _, _, _, h5⟩ :=
    (bad_address_rejected sampleEnv { connectedState with learner := js "0x123" }).1
      (by decide)
  exact ⟨by rw [h1, h5 rfl],
    ((bad_address_rejected sampleEnv
      { connectedState with issuerAddr := js "not an address" }).2 (by decide)).2.2 rfl⟩

/-- C10 at the example of the spec: after two mints to `learnerL` and one to
another account, exactly the two token ids of `learnerL`, in mint order. -/
theorem loadMyTokens_lists_own_tokens_witness :
    (connectedState.run (loadMyTokens sampleEnv connectedState)).myCreds = [js "0", js "2"] :=
  (loadMyTokens_lists_own_tokens sampleEnv connectedState rfl (by decide) rfl).1.trans
    (by decide)


end CredChain
